import Mathlib

/-!
# Verification of the grafana-ad-syncher reconciliation engine

Shallow embedding of the Reconciliation Planning & Execution Engine of
`grafana-ad-syncher` (package `syncer`, together with the relevant parts of
packages `store` and `grafana`).

The embedding follows the engine source: `BuildPlan`, `ApplyPlan`,
`sortActions`, `maxRole`, `maxTeamRole`, `normalizeTeamRole`, `teamKey`,
`mappingNote`, `appendNote`, `pickEmail`, `userID`,
`isExternallySyncedUserErr`, and the store operations `ReplacePlan`,
`ClearPlan`, `LatestPlan`.

Modelling conventions:
* Go `int64` is `Int`; Go strings are `String`.
* Go maps are association lists (`List (κ × β)`) with insert-or-overwrite
  semantics; iteration is in insertion order (a determinization of Go's
  unspecified map iteration order).
* Network collaborators (the directory client and the platform client) are
  oracle functions.  A fallible call returning `(T, error)` becomes
  `Option T` (`none` = error) during collection, and `Except String T`
  during execution, mirroring how the source distinguishes the two phases.
* `nil` pointers (`*grafana.User`) become `Option GrafanaUser`.
-/

/-- `store.Org`: one managed organization (id, grafana_org_id, name,
default_role). -/
structure Org where
  id : Int := 0
  grafanaOrgID : Int := 0
  name : String := ""
  defaultRole : String := ""
deriving DecidableEq, Repr

/-- `store.Mapping`: one directory-group → team rule.  `teamRole` is the
team-membership role policy used by the syncer (`mapping.TeamRole`). -/
structure Mapping where
  id : Int := 0
  orgID : Int := 0
  grafanaTeamName : String := ""
  grafanaTeamID : Int := 0
  externalGroupID : String := ""
  externalGroupName : String := ""
  roleOverride : String := ""
  teamRole : String := ""
deriving DecidableEq, Repr

/-- `store.PlanAction`: one atomic change of a plan.  Field defaults mirror
Go zero values, so literal construction with omitted fields matches the
source's struct literals. -/
structure PlanAction where
  actionType : String := ""
  orgID : Int := 0
  grafanaOrgID : Int := 0
  teamID : Int := 0
  teamName : String := ""
  teamRole : String := ""
  userID : Int := 0
  email : String := ""
  displayName : String := ""
  role : String := ""
  externalGroupID : String := ""
  note : String := ""
deriving DecidableEq, Repr

/-- `entra.Member`: a directory group member. -/
structure Member where
  id : String := ""
  displayName : String := ""
  mail : String := ""
deriving DecidableEq, Repr

/-- `grafana.User`. -/
structure GrafanaUser where
  id : Int := 0
  name : String := ""
  login : String := ""
  email : String := ""
deriving DecidableEq, Repr

/-- `grafana.TeamMember`. -/
structure TeamMember where
  id : Int := 0
  email : String := ""
  role : String := ""
deriving DecidableEq, Repr

/-- `grafana.OrgUser`. -/
structure OrgUser where
  id : Int := 0
  email : String := ""
  role : String := ""
deriving DecidableEq, Repr

/-- The syncer configuration carried by `Syncer` (`defaultUserRole`,
`allowCreateUsers`, `allowRemoveUsers`). -/
structure SyncConfig where
  defaultUserRole : String := ""
  allowCreateUsers : Bool := false
  allowRemoveUsers : Bool := false
deriving DecidableEq, Repr

/-- Platform-client oracle for the collection phase.  `none` models a call
returning an error; `some` is a successful reply.  For `searchTeam` and
`lookupUser` the inner `Option` is the "found" flag of the source. -/
structure GrafanaEnv where
  searchTeam : Int → String → Option (Option Int)
  listTeamMembers : Int → Option (List TeamMember)
  lookupUser : String → Option (Option GrafanaUser)
  listOrgUsers : Int → Option (List OrgUser)

/-- Directory-client oracle (`entra.Client.ListGroupMembers`). -/
structure EntraEnv where
  listGroupMembers : String → Option (List Member)

/-! ## Association-list operations modelling Go maps -/

/-- Go map read `m[k]` returning `none` when the key is absent. -/
def alookup {κ β : Type} [BEq κ] (m : List (κ × β)) (k : κ) : Option β :=
  (m.find? (fun p => p.1 == k)).map (fun p => p.2)

/-- Go map write `m[k] = v`: overwrite in place if present, else append. -/
def ainsert {κ β : Type} [BEq κ] (m : List (κ × β)) (k : κ) (v : β) :
    List (κ × β) :=
  if (m.find? (fun p => p.1 == k)).isSome then
    m.map (fun p => if p.1 == k then (k, v) else p)
  else
    m ++ [(k, v)]

/-- Read from a Go map of maps (`m[k][k2]`), `none` when either level is
absent. -/
def alookup2 {κ κ2 β : Type} [BEq κ] [BEq κ2]
    (m : List (κ × List (κ2 × β))) (k : κ) (k2 : κ2) : Option β :=
  match alookup m k with
  | none => none
  | some inner => alookup inner k2

/-- Write into a Go map of maps: `if m[k] == nil { m[k] = map{} };
m[k][k2] = v`. -/
def ainsert2 {κ κ2 β : Type} [BEq κ] [BEq κ2]
    (m : List (κ × List (κ2 × β))) (k : κ) (k2 : κ2) (v : β) :
    List (κ × List (κ2 × β)) :=
  ainsert m k (ainsert ((alookup m k).getD []) k2 v)

/-! ## String primitives

`strings.ToLower`, `strings.TrimSpace` and `strings.Contains` are modelled
by structurally recursive functions over the character list (ASCII case
folding and ASCII whitespace, which covers every string the engine
compares), so that concrete instances evaluate inside the kernel. -/

/-- ASCII case folding of one character (`unicode.ToLower` restricted to
ASCII). -/
def lowerChar (c : Char) : Char :=
  if 65 ≤ c.toNat ∧ c.toNat ≤ 90 then Char.ofNat (c.toNat + 32) else c

/-- `strings.ToLower`. -/
def sToLower (s : String) : String :=
  ⟨s.data.map lowerChar⟩

/-- `unicode.IsSpace` on the ASCII range. -/
def isSpaceChar (c : Char) : Bool :=
  c == ' ' || c == '\t' || c == '\n' || c == '\r' || c == '\x0b' || c == '\x0c'

/-- `strings.TrimSpace`. -/
def sTrim (s : String) : String :=
  ⟨((s.data.dropWhile isSpaceChar).reverse.dropWhile isSpaceChar).reverse⟩

/-- Contiguous-subsequence test on character lists (`strings.Contains`). -/
def containsSeq (pat : List Char) : List Char → Bool
  | [] => pat.isEmpty
  | a :: rest => List.isPrefixOf pat (a :: rest) || containsSeq pat rest

/-! ## Helper functions of the syncer -/

/-- `pickEmail` (engine version): only `member.Mail` is consulted. -/
def pickEmail (member : Member) : String :=
  member.mail

/-- `userID`: dereference a possibly nil `*grafana.User`. -/
def userID (user : Option GrafanaUser) : Int :=
  match user with
  | none => 0
  | some u => u.id

/-- The role-strength table of `maxRole`:
`Viewer(1) < Editor(2) < Admin(3)`, anything else `0`. -/
def roleOrder (r : String) : Nat :=
  if r == "Viewer" then 1
  else if r == "Editor" then 2
  else if r == "Admin" then 3
  else 0

/-- `maxRole`: keep the stronger of the current and candidate org roles. -/
def maxRole (current candidate : String) : String :=
  if roleOrder candidate > roleOrder current then candidate
  else if current == "" then candidate
  else current

/-- `normalizeTeamRole`: trim + lower-case, `"admin"` or else `"member"`. -/
def normalizeTeamRole (role : String) : String :=
  if sToLower (sTrim role) == "admin" then "admin" else "member"

/-- `maxTeamRole`: `admin` dominates, empty current defaults to
`member`. -/
def maxTeamRole (current candidate : String) : String :=
  if sToLower candidate == "admin" then "admin"
  else if current == "" then "member"
  else current

/-- `teamKey`: `fmt.Sprintf("%d:%s", orgID, strings.ToLower(teamName))`. -/
def teamKey (orgID : Int) (teamName : String) : String :=
  toString orgID ++ ":" ++ sToLower teamName

/-- `strings.EqualFold` (case-insensitive string equality). -/
def eqFold (a b : String) : Bool :=
  sToLower a == sToLower b

/-- `appendNote`: join two note fragments with `"; "`. -/
def appendNote (base addition : String) : String :=
  let base := sTrim base
  let addition := sTrim addition
  if addition == "" then base
  else if base == "" then addition
  else base ++ "; " ++ addition

/-- `mappingNote`: the human-readable justification naming org, team and
group. -/
def mappingNote (orgName : String) (mapping : Mapping) : String :=
  let orgLabel := if sTrim orgName == "" then "org " ++ toString mapping.orgID else orgName
  let groupLabel :=
    if sTrim mapping.externalGroupName == "" then mapping.externalGroupID
    else if mapping.externalGroupID != "" then
      sTrim mapping.externalGroupName ++ " (" ++ mapping.externalGroupID ++ ")"
    else sTrim mapping.externalGroupName
  let teamLabel :=
    if sTrim mapping.grafanaTeamName == "" then "team " ++ toString mapping.grafanaTeamID
    else mapping.grafanaTeamName
  "mapping: " ++ orgLabel ++ "/" ++ teamLabel ++ " <- " ++ groupLabel

/-- `isExternallySyncedUserErr`: substring match for
`"org.externallySynced"` on the error text. -/
def isExternallySyncedUserErr (e : String) : Bool :=
  containsSeq "org.externallySynced".data e.data

/-- The phase table of `sortActions` (map miss yields `0`). -/
def actionOrder (t : String) : Nat :=
  if t == "create_team" then 1
  else if t == "create_user" then 2
  else if t == "add_user_to_org" then 3
  else if t == "update_user_role" then 4
  else if t == "add_user_to_team" then 5
  else if t == "update_team_role" then 6
  else if t == "remove_user_from_team" then 7
  else 0

/-- The comparator key order of `sortActions` as a relation. -/
def actionLE (a b : PlanAction) : Prop :=
  actionOrder a.actionType ≤ actionOrder b.actionType

instance : DecidableRel actionLE :=
  fun _ _ => Nat.decLe _ _

instance : IsTotal PlanAction actionLE :=
  ⟨fun _ _ => Nat.le_total _ _⟩

instance : IsTrans PlanAction actionLE :=
  ⟨fun _ _ _ => Nat.le_trans⟩

/-- `sortActions`: the source calls `sort.SliceStable` with
`order[a[i]] < order[a[j]]`; a stable sort with respect to `actionLE`
realizes exactly that contract. -/
def sortActions (actions : List PlanAction) : List PlanAction :=
  List.insertionSort actionLE actions

/-! ## BuildPlan (the diff engine) -/

/-- The mutable per-build state of `Syncer.BuildPlan`: the action list and
the accumulation/deduplication maps threaded through the mapping loop. -/
structure BuildState where
  actions : List PlanAction := []
  userCache : List (String × Option GrafanaUser) := []
  roleByOrgEmail : List (Int × List (String × String)) := []
  roleSourceByOrgEmail : List (Int × List (String × String)) := []
  addedTeamUsers : List (String × Nat) := []
  teamRoleByTeamEmail : List (String × List (String × String)) := []
  updatedTeamRoles : List String := []
deriving Repr

/-- Team-id resolution at the head of the mapping loop: use the cached id,
otherwise `SearchTeam`; a search error is logged and leaves the id `0`. -/
def resolveTeamID (genv : GrafanaEnv) (org : Org) (mapping : Mapping) : Int :=
  if mapping.grafanaTeamID == 0 then
    match genv.searchTeam org.grafanaOrgID mapping.grafanaTeamName with
    | none => 0
    | some none => 0
    | some (some id) => id
  else mapping.grafanaTeamID

/-- One step of the loop that builds `want` while aggregating the requested
team role per `(team, email)` with `maxTeamRole`. -/
def collectWantStep (mapping : Mapping) (key : String)
    (acc : List (String × Member) × List (String × List (String × String)))
    (member : Member) :
    List (String × Member) × List (String × List (String × String)) :=
  let email := sTrim (sToLower (pickEmail member))
  if email == "" then acc
  else
    let current := (alookup2 acc.2 key email).getD ""
    (ainsert acc.1 email member,
     ainsert2 acc.2 key email (maxTeamRole current (normalizeTeamRole mapping.teamRole)))

/-- The tail of the per-member body (after the user-existence check): org
role accumulation and the per-user team membership delta. -/
def wantEntryTail (orgNameByID : List (Int × String)) (org : Org)
    (mapping : Mapping) (teamID : Int) (role roleSource : String)
    (haveM : List (String × TeamMember)) (st : BuildState)
    (email : String) (user : Option GrafanaUser) : BuildState :=
  let current := (alookup2 st.roleByOrgEmail org.id email).getD ""
  let next := maxRole current role
  let st := { st with roleByOrgEmail := ainsert2 st.roleByOrgEmail org.id email next }
  let srcNote := roleSource ++ "; " ++ mappingNote ((alookup orgNameByID org.id).getD "") mapping
  let st :=
    if next != current then
      { st with roleSourceByOrgEmail := ainsert2 st.roleSourceByOrgEmail org.id email srcNote }
    else st
  match alookup haveM email with
  | none =>
    let key := teamKey org.id mapping.grafanaTeamName
    let teamUserKey := key ++ ":" ++ email
    let teamRole0 := (alookup2 st.teamRoleByTeamEmail key email).getD ""
    let teamRole := if teamRole0 == "" then "member" else teamRole0
    match alookup st.addedTeamUsers teamUserKey with
    | some idx =>
      match st.actions.get? idx with
      | some a =>
        if maxTeamRole a.teamRole teamRole != a.teamRole then
          { st with actions := st.actions.set idx { a with teamRole := teamRole } }
        else st
      | none => st
    | none =>
      { st with
          actions := st.actions ++
            [{ actionType := "add_user_to_team"
               orgID := org.id
               grafanaOrgID := org.grafanaOrgID
               teamID := teamID
               teamName := mapping.grafanaTeamName
               teamRole := teamRole
               userID := userID user
               email := email
               role := role
               externalGroupID := mapping.externalGroupID
               note := mappingNote ((alookup orgNameByID org.id).getD "") mapping }],
          addedTeamUsers := ainsert st.addedTeamUsers teamUserKey st.actions.length }
  | some _ =>
    let teamRole := (alookup2 st.teamRoleByTeamEmail (teamKey org.id mapping.grafanaTeamName) email).getD ""
    if teamRole == "admin" then
      let updateKey := teamKey org.id mapping.grafanaTeamName ++ ":" ++ email
      if st.updatedTeamRoles.contains updateKey then st
      else
        { st with
            actions := st.actions ++
              [{ actionType := "update_team_role"
                 orgID := org.id
                 grafanaOrgID := org.grafanaOrgID
                 teamID := teamID
                 teamName := mapping.grafanaTeamName
                 teamRole := teamRole
                 userID := userID user
                 email := email
                 externalGroupID := mapping.externalGroupID
                 note := mappingNote ((alookup orgNameByID org.id).getD "") mapping }],
            updatedTeamRoles := st.updatedTeamRoles ++ [updateKey] }
    else st

/-- The body of `for email, member := range want`: resolve the user through
the cache (a lookup error logs and skips the member), handle the
nonexistent-user policy (`blocked_create_user` short-circuits, `create_user`
falls through), then `wantEntryTail`. -/
def processWantEntry (cfg : SyncConfig) (genv : GrafanaEnv)
    (orgNameByID : List (Int × String)) (org : Org) (mapping : Mapping)
    (teamID : Int) (role roleSource : String)
    (haveM : List (String × TeamMember)) (st : BuildState)
    (email : String) (member : Member) : BuildState :=
  let resolved : Option (Option GrafanaUser × BuildState) :=
    match alookup st.userCache email with
    | some u => some (u, st)
    | none =>
      match genv.lookupUser email with
      | none => none
      | some found => some (found, { st with userCache := ainsert st.userCache email found })
  match resolved with
  | none => st
  | some (user, st) =>
    match user with
    | none =>
      if !cfg.allowCreateUsers then
        { st with
            actions := st.actions ++
              [{ actionType := "blocked_create_user"
                 orgID := org.id
                 grafanaOrgID := org.grafanaOrgID
                 teamID := teamID
                 teamName := mapping.grafanaTeamName
                 email := email
                 displayName := member.displayName
                 role := role
                 externalGroupID := mapping.externalGroupID
                 note := appendNote "user not found and creation disabled"
                   (mappingNote ((alookup orgNameByID org.id).getD "") mapping) }] }
      else
        let name := if member.displayName == "" then email else member.displayName
        let st :=
          { st with
              actions := st.actions ++
                [{ actionType := "create_user"
                   orgID := org.id
                   grafanaOrgID := org.grafanaOrgID
                   teamID := teamID
                   teamName := mapping.grafanaTeamName
                   email := email
                   displayName := name
                   role := role
                   externalGroupID := mapping.externalGroupID
                   note := mappingNote ((alookup orgNameByID org.id).getD "") mapping }] }
        wantEntryTail orgNameByID org mapping teamID role roleSource haveM st email none
    | some u =>
      wantEntryTail orgNameByID org mapping teamID role roleSource haveM st email (some u)

/-- Normalized `have` map for a team listing. -/
def buildHave (teamMembers : List TeamMember) : List (String × TeamMember) :=
  teamMembers.foldl
    (fun acc tm =>
      let email := sTrim (sToLower tm.email)
      if email != "" then ainsert acc email tm else acc)
    []

/-- The effective org role and its justification source for a mapping:
mapping override, else org default, else service default. -/
def mappingRole (cfg : SyncConfig) (org : Org) (mapping : Mapping) : String × String :=
  if mapping.roleOverride == "" then
    if org.defaultRole != "" then
      (org.defaultRole, "org default role: " ++ org.defaultRole)
    else
      (cfg.defaultUserRole, "service default role: " ++ cfg.defaultUserRole)
  else
    (mapping.roleOverride, "mapping role override: " ++ mapping.roleOverride)

/-- One iteration of the mapping loop of `BuildPlan` (lines of the source
from the dangling-org check to the member-removal pass). -/
def processMapping (cfg : SyncConfig) (genv : GrafanaEnv) (eenv : EntraEnv)
    (orgByID : List (Int × Org)) (orgNameByID : List (Int × String))
    (st : BuildState) (mapping : Mapping) : BuildState :=
  match alookup orgByID mapping.orgID with
  | none => st
  | some org =>
    let teamID := resolveTeamID genv org mapping
    let st :=
      if teamID == 0 then
        { st with
            actions := st.actions ++
              [{ actionType := "create_team"
                 orgID := org.id
                 grafanaOrgID := org.grafanaOrgID
                 teamName := mapping.grafanaTeamName
                 teamRole := normalizeTeamRole mapping.teamRole
                 externalGroupID := mapping.externalGroupID
                 note := mappingNote ((alookup orgNameByID org.id).getD "") mapping }] }
      else st
    match eenv.listGroupMembers mapping.externalGroupID with
    | none => st
    | some members =>
      let key := teamKey org.id mapping.grafanaTeamName
      let collected := members.foldl (collectWantStep mapping key) ([], st.teamRoleByTeamEmail)
      let want := collected.1
      let st := { st with teamRoleByTeamEmail := collected.2 }
      let haveRes : Option (List (String × TeamMember)) :=
        if teamID != 0 then
          match genv.listTeamMembers teamID with
          | none => none
          | some teamMembers => some (buildHave teamMembers)
        else some []
      match haveRes with
      | none => st
      | some haveM =>
        let rr := mappingRole cfg org mapping
        let st := want.foldl
          (fun st p =>
            processWantEntry cfg genv orgNameByID org mapping teamID rr.1 rr.2 haveM st p.1 p.2)
          st
        if cfg.allowRemoveUsers then
          haveM.foldl
            (fun st p =>
              if (alookup want p.1).isSome then st
              else
                { st with
                    actions := st.actions ++
                      [{ actionType := "remove_user_from_team"
                         orgID := org.id
                         grafanaOrgID := org.grafanaOrgID
                         teamID := teamID
                         teamName := mapping.grafanaTeamName
                         userID := p.2.id
                         email := p.1
                         externalGroupID := mapping.externalGroupID
                         note := mappingNote ((alookup orgNameByID org.id).getD "") mapping }] })
            st
        else st

/-- The `orgByID` index built at the head of `BuildPlan`. -/
def orgIndex (orgs : List Org) : List (Int × Org) :=
  orgs.foldl (fun m org => ainsert m org.id org) []

/-- The `orgNameByID` index built at the head of `BuildPlan`. -/
def orgNameIndex (orgs : List Org) : List (Int × String) :=
  orgs.foldl (fun m org => ainsert m org.id org.name) []

/-- Phase 1 of `BuildPlan`: the complete mapping loop. -/
def buildPhase1 (cfg : SyncConfig) (genv : GrafanaEnv) (eenv : EntraEnv)
    (orgs : List Org) (mappings : List Mapping) : BuildState :=
  mappings.foldl (processMapping cfg genv eenv (orgIndex orgs) (orgNameIndex orgs)) {}

/-- `orgUsersByOrgEmail`: per org, the normalized actual org member map; a
listing error leaves the org absent (`nil` map in the source). -/
def collectOrgUsers (genv : GrafanaEnv) (orgs : List Org) :
    List (Int × List (String × OrgUser)) :=
  orgs.foldl
    (fun acc org =>
      match genv.listOrgUsers org.grafanaOrgID with
      | none => acc
      | some users =>
        let base := (alookup acc org.id).getD []
        ainsert acc org.id
          (users.foldl
            (fun m user =>
              let email := sToLower (sTrim user.email)
              if email == "" then m else ainsert m email user)
            base))
    []

/-- Phase 2 of `BuildPlan`: the org-role reconciliation pass over the
accumulated `(org, email) → role` map. -/
def orgRolePass (orgByID : List (Int × Org))
    (orgUsersByOrgEmail : List (Int × List (String × OrgUser)))
    (st : BuildState) : List PlanAction :=
  st.roleByOrgEmail.foldl
    (fun actions p =>
      let orgID := p.1
      let org := (alookup orgByID orgID).getD {}
      let orgUsers := alookup orgUsersByOrgEmail orgID
      p.2.foldl
        (fun actions q =>
          let email := q.1
          let role := q.2
          let key := sToLower (sTrim email)
          let existingFound : Option OrgUser :=
            match orgUsers with
            | none => none
            | some l => alookup l key
          let user : Option GrafanaUser := (alookup st.userCache email).getD none
          match existingFound with
          | none =>
            let note0 := (alookup2 st.roleSourceByOrgEmail orgID email).getD ""
            let note :=
              if orgUsers.isNone then appendNote note0 "org user lookup failed" else note0
            actions ++
              [{ actionType := "add_user_to_org"
                 orgID := orgID
                 grafanaOrgID := org.grafanaOrgID
                 userID := userID user
                 email := email
                 role := role
                 note := note }]
          | some existing =>
            if !eqFold existing.role role then
              let userIDValue := if userID user == 0 then existing.id else userID user
              actions ++
                [{ actionType := "update_user_role"
                   orgID := orgID
                   grafanaOrgID := org.grafanaOrgID
                   userID := userIDValue
                   email := email
                   role := role
                   note := appendNote ((alookup2 st.roleSourceByOrgEmail orgID email).getD "")
                     ("current role: " ++ existing.role) }]
            else actions)
        actions)
    st.actions

/-- `Syncer.BuildPlan`: the full diff engine, returning the plan's action
list (the surrounding `store.Plan` only adds a timestamp and the status
`"planned"`). -/
def BuildPlan (cfg : SyncConfig) (genv : GrafanaEnv) (eenv : EntraEnv)
    (orgs : List Org) (mappings : List Mapping) : List PlanAction :=
  orgRolePass (orgIndex orgs) (collectOrgUsers genv orgs)
    (buildPhase1 cfg genv eenv orgs mappings)

/-! ## ApplyPlan (the plan executor)

The platform client during execution is an oracle of `Except String`
results (`.error` models a Go error return).  The known-recoverable
conflict/not-found outcomes (`AddUserToOrg` conflict,
`UpdateTeamMemberRole`/`RemoveUserFromTeam` not-found) are already folded
into a `.ok` result by `grafana.Client`, exactly as the executor observes
them.

Two ghost observation fields are threaded through the state: `calls`, the
sequence of platform calls issued, and `extSkipped`, the actions abandoned
through the externally-managed skip path.  They record what happened and
never influence control flow.  `audit` is the `RecordSyncAction` ledger:
its implementation lives outside the engine, which invokes it after each
action and merely logs a failure, so it is modelled as an unconditional
append (the source stamps each record with `time.Now()` in UTC). -/

/-- One platform call as issued by the executor. -/
inductive PlatformCall where
  | ensureTeam (grafanaOrgID : Int) (name : String)
  | createUser (email : String)
  | addUserToOrg (grafanaOrgID : Int) (email role : String)
  | updateUserRole (grafanaOrgID userId : Int) (role : String)
  | lookupUser (email : String)
  | addUserToTeam (teamId userId : Int) (role : String)
  | updateTeamMemberRole (teamId userId : Int) (role : String)
  | removeUserFromTeam (teamId userId : Int)
deriving DecidableEq, Repr

/-- Platform-client oracle for the execution phase. -/
structure ApplyEnv where
  ensureTeam : Int → String → Except String Int
  createUser : String → String → String → Except String GrafanaUser
  addUserToOrg : Int → String → String → Except String Unit
  updateUserRole : Int → Int → String → Except String Unit
  lookupUser : String → Except String (Option GrafanaUser)
  addUserToTeam : Int → Int → String → Except String Unit
  updateTeamMemberRole : Int → Int → String → Except String Unit
  removeUserFromTeam : Int → Int → Except String Unit

/-- The executor state: the two in-memory resolution maps, the audit
ledger, and the two ghost traces. -/
structure ApplyState where
  userIDs : List (String × Int) := []
  teamIDs : List (String × Int) := []
  audit : List PlanAction := []
  calls : List PlatformCall := []
  extSkipped : List PlanAction := []
deriving Repr

/-- Append one ghost call-trace entry. -/
def logCall (st : ApplyState) (c : PlatformCall) : ApplyState :=
  { st with calls := st.calls ++ [c] }

/-- `RecordSyncAction` as observed by the executor: append to the ledger
(a persistence failure is only logged by the source). -/
def recordAction (st : ApplyState) (a : PlanAction) : ApplyState :=
  { st with audit := st.audit ++ [a] }

/-- The `create_team` case of the executor switch. -/
def applyCreateTeam (env : ApplyEnv) (st : ApplyState) (a : PlanAction) :
    ApplyState × Option String :=
  let st := logCall st (.ensureTeam a.grafanaOrgID a.teamName)
  match env.ensureTeam a.grafanaOrgID a.teamName with
  | .error e => (st, some e)
  | .ok teamId =>
    let st := { st with teamIDs := ainsert st.teamIDs (teamKey a.orgID a.teamName) teamId }
    (recordAction st a, none)

/-- The `create_user` case of the executor switch (the random generated
credential does not influence control flow and is omitted). -/
def applyCreateUser (env : ApplyEnv) (st : ApplyState) (a : PlanAction) :
    ApplyState × Option String :=
  let name := if a.displayName == "" then a.email else a.displayName
  let st := logCall st (.createUser a.email)
  match env.createUser a.email a.email name with
  | .error e => (st, some e)
  | .ok created =>
    let st := { st with userIDs := ainsert st.userIDs a.email created.id }
    (recordAction st a, none)

/-- The `add_user_to_org` case of the executor switch (a conflict response
is already folded into `.ok` by the platform client). -/
def applyAddUserToOrg (env : ApplyEnv) (st : ApplyState) (a : PlanAction) :
    ApplyState × Option String :=
  let st := logCall st (.addUserToOrg a.grafanaOrgID a.email a.role)
  match env.addUserToOrg a.grafanaOrgID a.email a.role with
  | .error e => (st, some e)
  | .ok _ => (recordAction st a, none)

/-- The platform-update tail of the `update_user_role` case, entered with
the resolved user id: a zero id skips the call, an externally-managed error
skips the action without recording it, any other error aborts. -/
def updateUserRoleCall (env : ApplyEnv) (st : ApplyState) (a : PlanAction)
    (id : Int) : ApplyState × Option String :=
  if id != 0 then
    let st := logCall st (.updateUserRole a.grafanaOrgID id a.role)
    match env.updateUserRole a.grafanaOrgID id a.role with
    | .error e =>
      if isExternallySyncedUserErr e then
        ({ st with extSkipped := st.extSkipped ++ [a] }, none)
      else (st, some e)
    | .ok _ => (recordAction st a, none)
  else (recordAction st a, none)

/-- The `update_user_role` case of the executor switch: resolve the user
id from the payload, the batch cache, or a fresh lookup. -/
def applyUpdateUserRole (env : ApplyEnv) (st : ApplyState) (a : PlanAction) :
    ApplyState × Option String :=
  let id0 := if a.userID == 0 then (alookup st.userIDs a.email).getD 0 else a.userID
  if id0 == 0 then
    let st := logCall st (.lookupUser a.email)
    match env.lookupUser a.email with
    | .error e => (st, some e)
    | .ok found =>
      updateUserRoleCall env st a (match found with | some u => u.id | none => 0)
  else updateUserRoleCall env st a id0

/-- The platform-call tail of the `add_user_to_team` case. -/
def addUserToTeamCall (env : ApplyEnv) (st : ApplyState) (a : PlanAction)
    (teamId id : Int) : ApplyState × Option String :=
  if id != 0 then
    let st := logCall st (.addUserToTeam teamId id a.teamRole)
    match env.addUserToTeam teamId id a.teamRole with
    | .error e => (st, some e)
    | .ok _ => (recordAction st a, none)
  else (recordAction st a, none)

/-- The `add_user_to_team` case of the executor switch: a still-unresolved
team id aborts the batch; the user id comes from the payload, the batch
cache, or a fresh lookup. -/
def applyAddUserToTeam (env : ApplyEnv) (st : ApplyState) (a : PlanAction) :
    ApplyState × Option String :=
  let teamId := if a.teamID == 0 then (alookup st.teamIDs (teamKey a.orgID a.teamName)).getD 0 else a.teamID
  if teamId == 0 then (st, some ("missing team id for " ++ a.teamName))
  else
    let id0 := if a.userID == 0 then (alookup st.userIDs a.email).getD 0 else a.userID
    if id0 == 0 then
      let st := logCall st (.lookupUser a.email)
      match env.lookupUser a.email with
      | .error e => (st, some e)
      | .ok found =>
        addUserToTeamCall env st a teamId (match found with | some u => u.id | none => 0)
    else addUserToTeamCall env st a teamId id0

/-- The platform-call tail of the `update_team_role` case. -/
def updateTeamRoleCall (env : ApplyEnv) (st : ApplyState) (a : PlanAction)
    (teamId id : Int) : ApplyState × Option String :=
  if id != 0 then
    let st := logCall st (.updateTeamMemberRole teamId id a.teamRole)
    match env.updateTeamMemberRole teamId id a.teamRole with
    | .error e => (st, some e)
    | .ok _ => (recordAction st a, none)
  else (recordAction st a, none)

/-- The `update_team_role` case of the executor switch (the user id comes
from the payload or a fresh lookup; the batch cache is not consulted). -/
def applyUpdateTeamRole (env : ApplyEnv) (st : ApplyState) (a : PlanAction) :
    ApplyState × Option String :=
  let teamId := if a.teamID == 0 then (alookup st.teamIDs (teamKey a.orgID a.teamName)).getD 0 else a.teamID
  if teamId == 0 then (st, some ("missing team id for " ++ a.teamName))
  else
    if a.userID == 0 then
      let st := logCall st (.lookupUser a.email)
      match env.lookupUser a.email with
      | .error e => (st, some e)
      | .ok found =>
        updateTeamRoleCall env st a teamId (match found with | some u => u.id | none => 0)
    else updateTeamRoleCall env st a teamId a.userID

/-- The platform-call tail of the `remove_user_from_team` case. -/
def removeUserFromTeamCall (env : ApplyEnv) (st : ApplyState) (a : PlanAction)
    (teamId id : Int) : ApplyState × Option String :=
  if id != 0 then
    let st := logCall st (.removeUserFromTeam teamId id)
    match env.removeUserFromTeam teamId id with
    | .error e => (st, some e)
    | .ok _ => (recordAction st a, none)
  else (recordAction st a, none)

/-- The `remove_user_from_team` case of the executor switch. -/
def applyRemoveUserFromTeam (env : ApplyEnv) (st : ApplyState) (a : PlanAction) :
    ApplyState × Option String :=
  let teamId := if a.teamID == 0 then (alookup st.teamIDs (teamKey a.orgID a.teamName)).getD 0 else a.teamID
  if teamId == 0 then (st, some ("missing team id for " ++ a.teamName))
  else
    if a.userID == 0 then
      let st := logCall st (.lookupUser a.email)
      match env.lookupUser a.email with
      | .error e => (st, some e)
      | .ok found =>
        removeUserFromTeamCall env st a teamId (match found with | some u => u.id | none => 0)
    else removeUserFromTeamCall env st a teamId a.userID

/-- One iteration of the executor switch (the `default` arm of the source
just continues).  Returns the state reached, including everything that
happened before a failure, and the error, if any, that aborts the
batch. -/
def applyAction (env : ApplyEnv) (st : ApplyState) (a : PlanAction) :
    ApplyState × Option String :=
  if a.actionType == "create_team" then applyCreateTeam env st a
  else if a.actionType == "create_user" then applyCreateUser env st a
  else if a.actionType == "add_user_to_org" then applyAddUserToOrg env st a
  else if a.actionType == "update_user_role" then applyUpdateUserRole env st a
  else if a.actionType == "add_user_to_team" then applyAddUserToTeam env st a
  else if a.actionType == "update_team_role" then applyUpdateTeamRole env st a
  else if a.actionType == "remove_user_from_team" then applyRemoveUserFromTeam env st a
  else (st, none)

/-- The executor loop: the first aborting error stops the remaining
actions; everything already done stays done. -/
def applyLoop (env : ApplyEnv) : List PlanAction → ApplyState → ApplyState × Option String
  | [], st => (st, none)
  | a :: rest, st =>
    match applyAction env st a with
    | (st1, none) => applyLoop env rest st1
    | (st1, some e) => (st1, some e)

/-- `Syncer.ApplyPlan`: sort the batch into phase order, then execute. -/
def ApplyPlan (env : ApplyEnv) (actions : List PlanAction) :
    ApplyState × Option String :=
  if actions.isEmpty then ({}, none)
  else applyLoop env (sortActions actions) {}

/-! ## The plan store (`store.ReplacePlan` / `ClearPlan` / `LatestPlan`)

The sqlite tables `plans` and `plan_actions` are modelled as row lists with
`AUTOINCREMENT` counters.  Each store operation runs inside one transaction
(`Begin` … `Commit`, with `Rollback` on any statement failure), so its net
effect is either the full new state or the unchanged old state; the `ok`
argument injects the success or failure of the transaction's statements. -/

/-- A row of the `plans` table. -/
structure StoredPlan where
  id : Int := 0
  createdAt : String := ""
  status : String := ""
deriving DecidableEq, Repr

/-- A row of the `plan_actions` table. -/
structure StoredAction where
  id : Int := 0
  planID : Int := 0
  action : PlanAction := {}
deriving DecidableEq, Repr

/-- The plan-store database state. -/
structure PlanDB where
  plans : List StoredPlan := []
  planActions : List StoredAction := []
  nextPlanID : Int := 1
  nextActionID : Int := 1
deriving DecidableEq, Repr

/-- Number the actions of a new plan with consecutive `plan_actions` row
ids. -/
def numberActions (planID : Int) (firstID : Int) :
    List PlanAction → List StoredAction
  | [] => []
  | a :: rest => { id := firstID, planID := planID, action := a } :: numberActions planID (firstID + 1) rest

/-- `Store.ReplacePlan`: inside one transaction, delete all plan rows and
action rows, insert the new plan and its actions.  `ok = false` models a
failing statement: the transaction rolls back and the state is
unchanged. -/
def ReplacePlan (db : PlanDB) (createdAt status : String)
    (actions : List PlanAction) (ok : Bool) : PlanDB × Except String Int :=
  if ok then
    let pid := db.nextPlanID
    ({ plans := [{ id := pid, createdAt := createdAt, status := status }]
       planActions := numberActions pid db.nextActionID actions
       nextPlanID := pid + 1
       nextActionID := db.nextActionID + Int.ofNat actions.length },
     .ok pid)
  else (db, .error "replace plan failed")

/-- `Store.ClearPlan`: one transaction deleting all plan and action rows;
on failure the state is unchanged. -/
def ClearPlan (db : PlanDB) (ok : Bool) : PlanDB × Except String Unit :=
  if ok then
    ({ db with plans := [], planActions := [] }, .ok ())
  else (db, .error "clear plan failed")

/-- `Store.LatestPlan`: the plan row with the greatest id (ORDER BY id DESC
LIMIT 1) together with its action rows in id order, `none` when no row
exists. -/
def LatestPlan (db : PlanDB) : Option (StoredPlan × List StoredAction) :=
  match db.plans.foldl
      (fun best p =>
        match best with
        | none => some p
        | some b => if p.id > b.id then some p else some b)
      none with
  | none => none
  | some p => some (p, db.planActions.filter (fun r => r.planID == p.id))

/-- One store operation of a ReplacePlan/ClearPlan history, with its
injected transaction outcome. -/
inductive StoreOp where
  | replace (createdAt status : String) (actions : List PlanAction) (ok : Bool)
  | clear (ok : Bool)
deriving Repr

/-- Run a history of plan-store operations. -/
def runStoreOps (db : PlanDB) : List StoreOp → PlanDB
  | [] => db
  | .replace c s acts ok :: rest => runStoreOps (ReplacePlan db c s acts ok).1 rest
  | .clear ok :: rest => runStoreOps (ClearPlan db ok).1 rest

/-! ## Ordering properties of `sortActions` (C2) -/

/-- Inserting an element into a list leaves every per-phase filter equal to
the filter of simply consing the element: the comparator only looks at the
phase key, so an element is never moved past one with the same key. -/
theorem filter_orderedInsert_phase (v : Nat) (a : PlanAction) (l : List PlanAction) :
    (List.orderedInsert actionLE a l).filter (fun x => actionOrder x.actionType == v)
      = (a :: l).filter (fun x => actionOrder x.actionType == v) := by
  induction l with
  | nil => rfl
  | cons b t ih =>
    by_cases hab : actionLE a b
    · rw [List.orderedInsert, if_pos hab]
    · rw [List.orderedInsert, if_neg hab]
      have hlt : actionOrder b.actionType < actionOrder a.actionType :=
        Nat.lt_of_not_le hab
      by_cases hpa : actionOrder a.actionType = v
      · have hpb : actionOrder b.actionType ≠ v := by omega
        simp only [List.filter_cons, ih]
        simp [hpa, hpb]
      · simp only [List.filter_cons, ih]
        simp [hpa]

/-- Stability of `sortActions`: every phase filter of the result equals the
phase filter of the input list. -/
theorem filter_sortActions_phase (v : Nat) (l : List PlanAction) :
    (sortActions l).filter (fun x => actionOrder x.actionType == v)
      = l.filter (fun x => actionOrder x.actionType == v) := by
  induction l with
  | nil => rfl
  | cons a t ih =>
    show (List.orderedInsert actionLE a (List.insertionSort actionLE t)).filter _ = _
    rw [filter_orderedInsert_phase]
    unfold sortActions at ih
    simp only [List.filter_cons, ih]

/-- C2: `sortActions` stable-sorts the action list into the fixed phase
order `create_team (1), create_user (2), add_user_to_org (3),
update_user_role (4), add_user_to_team (5), update_team_role (6),
remove_user_from_team (7)` (any other kind has phase `0`): the result is a
permutation of the input, it is sorted by phase, and for every phase the
subsequence of actions of that phase is exactly the input's subsequence, so
relative insertion order within a phase is preserved. -/
theorem c2_sortActions_stable_phase_order (l : List PlanAction) :
    (sortActions l).Sorted actionLE ∧
    List.Perm (sortActions l) l ∧
    ∀ v : Nat, (sortActions l).filter (fun x => actionOrder x.actionType == v)
      = l.filter (fun x => actionOrder x.actionType == v) :=
  ⟨List.sorted_insertionSort actionLE l,
   List.perm_insertionSort actionLE l,
   fun v => filter_sortActions_phase v l⟩

/-! ## Single-current-plan invariant of the store (C7) -/

/-- A successful `ReplacePlan` leaves exactly one plan row; a failed one
changes nothing. -/
theorem replacePlan_plans (db : PlanDB) (c s : String) (acts : List PlanAction) :
    (ReplacePlan db c s acts true).1.plans =
      [{ id := db.nextPlanID, createdAt := c, status := s }] ∧
    (ReplacePlan db c s acts false).1 = db := by
  constructor <;> rfl

/-- Any ReplacePlan/ClearPlan history preserves "at most one plan row". -/
theorem runStoreOps_single_plan (ops : List StoreOp) (db : PlanDB)
    (h : db.plans.length ≤ 1) : (runStoreOps db ops).plans.length ≤ 1 := by
  induction ops generalizing db with
  | nil => exact h
  | cons op rest ih =>
    cases op with
    | replace c s acts ok =>
      cases ok with
      | false => exact ih _ h
      | true => exact ih _ (by simp [ReplacePlan])
    | clear ok =>
      cases ok with
      | false => exact ih _ h
      | true => exact ih _ (by simp [ClearPlan])

/-- C7: starting from a store with at most one current plan, any sequence
of `ReplacePlan`/`ClearPlan` operations — including ones whose transaction
fails and rolls back — leaves at most one plan row; a failed replacement
and a failed clear leave the store unchanged; and whenever `LatestPlan`
returns a plan, that plan is the single stored plan. -/
theorem c7_single_current_plan (db : PlanDB) (ops : List StoreOp)
    (h : db.plans.length ≤ 1) :
    (runStoreOps db ops).plans.length ≤ 1 ∧
    (∀ c s acts, (ReplacePlan (runStoreOps db ops) c s acts false).1 = runStoreOps db ops) ∧
    ((ClearPlan (runStoreOps db ops) false).1 = runStoreOps db ops) ∧
    (∀ p rows, LatestPlan (runStoreOps db ops) = some (p, rows) →
      (runStoreOps db ops).plans = [p]) := by
  have hlen := runStoreOps_single_plan ops db h
  refine ⟨hlen, fun c s acts => rfl, rfl, ?_⟩
  intro p rows hp
  match hplans : (runStoreOps db ops).plans with
  | [] =>
    rw [LatestPlan, hplans] at hp
    simp at hp
  | [q] =>
    rw [LatestPlan, hplans] at hp
    simp only [List.foldl] at hp
    cases hp
    rfl
  | q1 :: q2 :: t =>
    rw [hplans] at hlen
    simp at hlen

/-- Witness for C7 at a concrete store and history. -/
theorem c7_single_current_plan_witness :
    (({} : PlanDB).plans.length ≤ 1) ∧
    ((runStoreOps {} [.replace "t1" "planned" [] true, .clear false]).plans.length ≤ 1 ∧
     (∀ c s acts, (ReplacePlan (runStoreOps {} [.replace "t1" "planned" [] true, .clear false]) c s acts false).1 =
        runStoreOps {} [.replace "t1" "planned" [] true, .clear false]) ∧
     ((ClearPlan (runStoreOps {} [.replace "t1" "planned" [] true, .clear false]) false).1 =
        runStoreOps {} [.replace "t1" "planned" [] true, .clear false]) ∧
     (∀ p rows, LatestPlan (runStoreOps {} [.replace "t1" "planned" [] true, .clear false]) = some (p, rows) →
       (runStoreOps {} [.replace "t1" "planned" [] true, .clear false]).plans = [p])) :=
  ⟨by decide, c7_single_current_plan {} [.replace "t1" "planned" [] true, .clear false] (by decide)⟩

/-! ## Role-precedence properties (C3, C4) -/

/-- The strength of the role kept by `maxRole` is the maximum of the two
strengths, for all strings. -/
theorem roleOrder_maxRole (cur cand : String) :
    roleOrder (maxRole cur cand) = max (roleOrder cur) (roleOrder cand) := by
  unfold maxRole
  split
  · omega
  · split
    · next h1 h2 =>
      have : cur = "" := by simpa using h2
      subst this
      have : roleOrder "" = 0 := rfl
      omega
    · next h1 h2 => omega

/-- `maxTeamRole` with an admin candidate yields admin. -/
theorem maxTeamRole_admin_candidate (cur : String) :
    maxTeamRole cur "admin" = "admin" := rfl

/-- `maxTeamRole` never downgrades an admin aggregate. -/
theorem maxTeamRole_admin_current (cand : String) :
    maxTeamRole "admin" cand = "admin" := by
  unfold maxTeamRole
  split
  · rfl
  · rfl

/-- Scenario fixtures for C3: one org, one team, a "member" mapping and an
"admin" mapping whose groups both contain bob. -/
def c3Org : Org := { id := 1, grafanaOrgID := 1, name := "Main", defaultRole := "Viewer" }

def c3MapMember : Mapping :=
  { id := 1, orgID := 1, grafanaTeamName := "platform", grafanaTeamID := 10,
    externalGroupID := "g1", externalGroupName := "G1", teamRole := "member" }

def c3MapAdmin : Mapping :=
  { id := 2, orgID := 1, grafanaTeamName := "platform", grafanaTeamID := 10,
    externalGroupID := "g2", externalGroupName := "G2", teamRole := "admin" }

def c3Bob : GrafanaUser := { id := 7, name := "Bob", login := "bob", email := "bob@example.com" }

/-- Platform oracle for C3; `inTeam` selects whether bob is already a team
member. -/
def c3Genv (inTeam : Bool) : GrafanaEnv :=
  { searchTeam := fun _ _ => some (some 10)
    listTeamMembers := fun _ =>
      some (if inTeam then [{ id := 7, email := "bob@example.com", role := "Member" }] else [])
    lookupUser := fun _ => some (some c3Bob)
    listOrgUsers := fun _ => some [] }

def c3Eenv : EntraEnv :=
  { listGroupMembers := fun _ =>
      some [{ id := "m1", displayName := "Bob", mail := "bob@example.com" }] }

def c3Cfg : SyncConfig :=
  { defaultUserRole := "Viewer", allowCreateUsers := true, allowRemoveUsers := true }

/-- The team-membership actions of a plan touching `(platform, bob)`. -/
def c3TeamActions (acts : List PlanAction) : List PlanAction :=
  acts.filter (fun a =>
    (a.actionType == "add_user_to_team" || a.actionType == "update_team_role") &&
    a.email == "bob@example.com" && a.teamName == "platform" && a.orgID == 1)

/-- C3: an admin aggregate dominates under `maxTeamRole` in either
direction, and in the two-mapping scenario — whichever of the "member" and
"admin" mappings is processed first, and whether or not bob is already a
team member — the plan contains exactly one
`add_user_to_team`/`update_team_role` action for `(platform, bob)`, and its
team role is `"admin"`. -/
theorem c3_team_role_precedence (ms : List Mapping) (inTeam : Bool)
    (h : ms = [c3MapMember, c3MapAdmin] ∨ ms = [c3MapAdmin, c3MapMember]) :
    (∀ cur, maxTeamRole cur "admin" = "admin") ∧
    (∀ cand, maxTeamRole "admin" cand = "admin") ∧
    ((c3TeamActions (BuildPlan c3Cfg (c3Genv inTeam) c3Eenv [c3Org] ms)).length = 1 ∧
     ∀ a ∈ c3TeamActions (BuildPlan c3Cfg (c3Genv inTeam) c3Eenv [c3Org] ms),
       a.teamRole = "admin") := by
  refine ⟨maxTeamRole_admin_candidate, maxTeamRole_admin_current, ?_⟩
  rcases h with h | h <;> subst h <;> cases inTeam <;> exact (by decide)

/-- Witness for C3 at the member-first order with bob not yet in the
team. -/
theorem c3_team_role_precedence_witness :
    ([c3MapMember, c3MapAdmin] = [c3MapMember, c3MapAdmin] ∨
      [c3MapMember, c3MapAdmin] = [c3MapAdmin, c3MapMember]) ∧
    ((∀ cur, maxTeamRole cur "admin" = "admin") ∧
     (∀ cand, maxTeamRole "admin" cand = "admin") ∧
     ((c3TeamActions (BuildPlan c3Cfg (c3Genv false) c3Eenv [c3Org]
         [c3MapMember, c3MapAdmin])).length = 1 ∧
      ∀ a ∈ c3TeamActions (BuildPlan c3Cfg (c3Genv false) c3Eenv [c3Org]
          [c3MapMember, c3MapAdmin]),
        a.teamRole = "admin")) :=
  ⟨Or.inl rfl,
   c3_team_role_precedence [c3MapMember, c3MapAdmin] false (Or.inl rfl)⟩

/-- Scenario fixtures for C4: one org, two mappings with role overrides
Viewer and Admin, both groups containing bob. -/
def c4Org : Org := { id := 2, grafanaOrgID := 2, name := "O2", defaultRole := "Viewer" }

def c4MapViewer : Mapping :=
  { id := 1, orgID := 2, grafanaTeamName := "t1", grafanaTeamID := 21,
    externalGroupID := "g1", externalGroupName := "G1", roleOverride := "Viewer",
    teamRole := "member" }

def c4MapAdmin : Mapping :=
  { id := 2, orgID := 2, grafanaTeamName := "t2", grafanaTeamID := 22,
    externalGroupID := "g2", externalGroupName := "G2", roleOverride := "Admin",
    teamRole := "member" }

/-- Platform oracle for C4; `inOrg` selects whether bob is already an org
member (with role Viewer). -/
def c4Genv (inOrg : Bool) : GrafanaEnv :=
  { searchTeam := fun _ _ => some (some 21)
    listTeamMembers := fun _ => some []
    lookupUser := fun _ => some (some c3Bob)
    listOrgUsers := fun _ =>
      some (if inOrg then [{ id := 7, email := "bob@example.com", role := "Viewer" }] else []) }

/-- The org-role actions of a plan touching `(O2, bob)`. -/
def c4OrgActions (acts : List PlanAction) : List PlanAction :=
  acts.filter (fun a =>
    (a.actionType == "add_user_to_org" || a.actionType == "update_user_role") &&
    a.email == "bob@example.com" && a.orgID == 2)

/-- C4: `maxRole` keeps the strongest role under the strength ordering
`Viewer(1) < Editor(2) < Admin(3)` for all inputs, and in the two-mapping
scenario — Viewer and Admin overrides in either processing order, with bob
either absent from the org or present with role Viewer — the plan contains
exactly one org-role action for `(O2, bob)` and it requests `"Admin"`. -/
theorem c4_org_role_precedence (ms : List Mapping) (inOrg : Bool)
    (h : ms = [c4MapViewer, c4MapAdmin] ∨ ms = [c4MapAdmin, c4MapViewer]) :
    (∀ cur cand, roleOrder (maxRole cur cand) = max (roleOrder cur) (roleOrder cand)) ∧
    ((c4OrgActions (BuildPlan c3Cfg (c4Genv inOrg) c3Eenv [c4Org] ms)).length = 1 ∧
     ∀ a ∈ c4OrgActions (BuildPlan c3Cfg (c4Genv inOrg) c3Eenv [c4Org] ms),
       a.role = "Admin") := by
  refine ⟨roleOrder_maxRole, ?_⟩
  rcases h with h | h <;> subst h <;> cases inOrg <;> exact (by decide)

/-- Witness for C4 at the Viewer-first order with bob already an org
Viewer. -/
theorem c4_org_role_precedence_witness :
    ([c4MapViewer, c4MapAdmin] = [c4MapViewer, c4MapAdmin] ∨
      [c4MapViewer, c4MapAdmin] = [c4MapAdmin, c4MapViewer]) ∧
    ((∀ cur cand, roleOrder (maxRole cur cand) = max (roleOrder cur) (roleOrder cand)) ∧
     ((c4OrgActions (BuildPlan c3Cfg (c4Genv true) c3Eenv [c4Org]
         [c4MapViewer, c4MapAdmin])).length = 1 ∧
      ∀ a ∈ c4OrgActions (BuildPlan c3Cfg (c4Genv true) c3Eenv [c4Org]
          [c4MapViewer, c4MapAdmin]),
        a.role = "Admin")) :=
  ⟨Or.inl rfl,
   c4_org_role_precedence [c4MapViewer, c4MapAdmin] true (Or.inl rfl)⟩

/-! ## Small evaluation lemmas for the map model -/

theorem alookup_nil {κ β : Type} [BEq κ] (k : κ) :
    alookup ([] : List (κ × β)) k = none := rfl

theorem alookup_cons {κ β : Type} [BEq κ] (k1 : κ) (v : β) (t : List (κ × β)) (k : κ) :
    alookup ((k1, v) :: t) k = if k1 == k then some v else alookup t k := by
  by_cases h : (k1 == k) = true
  · simp [alookup, List.find?, h]
  · simp [alookup, List.find?, h]

theorem ainsert_nil {κ β : Type} [BEq κ] (k : κ) (v : β) :
    ainsert ([] : List (κ × β)) k v = [(k, v)] := by
  simp [ainsert]

/-- Every element of a fold whose steps only append elements satisfying `Q`
is an original element or satisfies `Q`. -/
theorem foldl_extends {α : Type} (Q : PlanAction → Prop)
    (f : List PlanAction → α → List PlanAction)
    (hf : ∀ acts x, ∀ a ∈ f acts x, a ∈ acts ∨ Q a) :
    ∀ (l : List α) (acts : List PlanAction), ∀ a ∈ List.foldl f acts l, a ∈ acts ∨ Q a := by
  intro l
  induction l with
  | nil => intro acts a ha; exact Or.inl ha
  | cons x t ih =>
    intro acts a ha
    rcases ih (f acts x) a ha with h | h
    · exact hf acts x a h
    · exact Or.inr h

/-- The org-role reconciliation pass only ever appends `add_user_to_org`
and `update_user_role` actions to the phase-1 action list. -/
theorem orgRolePass_mem (orgByID : List (Int × Org))
    (oue : List (Int × List (String × OrgUser))) (st : BuildState) :
    ∀ a ∈ orgRolePass orgByID oue st,
      a ∈ st.actions ∨ a.actionType = "add_user_to_org" ∨ a.actionType = "update_user_role" := by
  intro a ha
  unfold orgRolePass at ha
  refine foldl_extends (fun a => a.actionType = "add_user_to_org" ∨ a.actionType = "update_user_role")
    _ ?_ _ _ a ha
  intro acts p b hb
  refine foldl_extends (fun a => a.actionType = "add_user_to_org" ∨ a.actionType = "update_user_role")
    _ ?_ _ _ b hb
  intro acts2 q c hc
  simp only at hc
  split at hc
  · rcases List.mem_append.mp hc with h | h
    · exact Or.inl h
    · simp at h
      subst h
      exact Or.inr (Or.inl rfl)
  · split at hc
    · rcases List.mem_append.mp hc with h | h
      · exact Or.inl h
      · simp at h
        subst h
        exact Or.inr (Or.inr rfl)
    · exact Or.inl hc

/-! ## Case/whitespace-insensitive identity (C8) -/

/-- C8 fixture: one org, one mapping with a cached team id. -/
def c8Org : Org := { id := 1, grafanaOrgID := 1, name := "Main", defaultRole := "Viewer" }

def c8Map : Mapping :=
  { id := 1, orgID := 1, grafanaTeamName := "platform", grafanaTeamID := 10,
    externalGroupID := "g1", externalGroupName := "G1", teamRole := "member" }

def c8User : GrafanaUser :=
  { id := 7, name := "Alice", login := "alice", email := "alice@example.com" }

/-- Platform oracle: the team's one member carries the raw email `e2`. -/
def c8Genv (e2 : String) : GrafanaEnv :=
  { searchTeam := fun _ _ => some (some 10)
    listTeamMembers := fun _ => some [{ id := 7, email := e2, role := "Member" }]
    lookupUser := fun _ => some (some c8User)
    listOrgUsers := fun _ => some [] }

/-- Directory oracle: the group's one member carries the raw email `e1`. -/
def c8Eenv (e1 : String) : EntraEnv :=
  { listGroupMembers := fun _ => some [{ id := "m1", displayName := "Alice", mail := e1 }] }

def c8Cfg : SyncConfig :=
  { defaultUserRole := "Viewer", allowCreateUsers := true, allowRemoveUsers := true }

set_option maxHeartbeats 2000000 in
/-- With equal nonempty normalizations, the C8 scenario's mapping loop
produces no actions at all: the directory member and the platform team
member unify into one identity. -/
theorem c8Phase1Empty (e1 e2 : String)
    (h1 : sTrim (sToLower e1) = sTrim (sToLower e2))
    (h2 : sTrim (sToLower e2) ≠ "") :
    (buildPhase1 c8Cfg (c8Genv e2) (c8Eenv e1) [c8Org] [c8Map]).actions = [] := by
  have hb : (sTrim (sToLower e2) == "") = false := by simpa using h2
  have hnm : normalizeTeamRole "member" = "member" := by decide
  have hmt : maxTeamRole "" "member" = "member" := by decide
  have hne : "member" ≠ "admin" := by decide
  have hmr : maxRole "" "Viewer" = "Viewer" := by decide
  have hvne : "Viewer" ≠ "" := by decide
  simp [buildPhase1, orgIndex, orgNameIndex, processMapping, resolveTeamID,
    collectWantStep, buildHave, mappingRole, processWantEntry, wantEntryTail,
    c8Cfg, c8Genv, c8Eenv, c8Org, c8Map, alookup_cons, alookup_nil, ainsert_nil,
    ainsert, alookup, alookup2, ainsert2, pickEmail, List.find?, h1, hb,
    h2, beq_self_eq_true, hnm, hmt, hne, hmr, hvne]

/-- C8: for any raw directory email `e1` and raw platform email `e2` that
are equal after lower-casing and trimming (and nonempty), the build treats
them as the same identity: the plan contains no `add_user_to_team`, no
`remove_user_from_team` and no `update_team_role` action — no membership
change is produced merely because the two systems differ in case or
surrounding whitespace (member removal enabled). -/
theorem c8_email_identity (e1 e2 : String)
    (h1 : sTrim (sToLower e1) = sTrim (sToLower e2))
    (h2 : sTrim (sToLower e2) ≠ "") :
    ∀ a ∈ BuildPlan c8Cfg (c8Genv e2) (c8Eenv e1) [c8Org] [c8Map],
      a.actionType ≠ "add_user_to_team" ∧ a.actionType ≠ "remove_user_from_team" ∧
      a.actionType ≠ "update_team_role" := by
  intro a ha
  unfold BuildPlan at ha
  rcases orgRolePass_mem _ _ _ a ha with hmem | ht | ht
  · rw [c8Phase1Empty e1 e2 h1 h2] at hmem
    simp at hmem
  · rw [ht]
    refine ⟨by decide, by decide, by decide⟩
  · rw [ht]
    refine ⟨by decide, by decide, by decide⟩

/-- Witness for C8 at the spec's own example pair. -/
theorem c8_email_identity_witness :
    (sTrim (sToLower "Alice@EXAMPLE.com ") = sTrim (sToLower "alice@example.com") ∧
     sTrim (sToLower "alice@example.com") ≠ "") ∧
    ∀ a ∈ BuildPlan c8Cfg (c8Genv "alice@example.com") (c8Eenv "Alice@EXAMPLE.com ")
        [c8Org] [c8Map],
      a.actionType ≠ "add_user_to_team" ∧ a.actionType ≠ "remove_user_from_team" ∧
      a.actionType ≠ "update_team_role" :=
  ⟨⟨by decide, by decide⟩,
   c8_email_identity "Alice@EXAMPLE.com " "alice@example.com" (by decide) (by decide)⟩

/-! ## Audit semantics of the executor (C9) -/

/-- The seven executable action kinds of the executor switch. -/
def executableKinds : List String :=
  ["create_team", "create_user", "add_user_to_org", "update_user_role",
   "add_user_to_team", "update_team_role", "remove_user_from_team"]

/-- The audit behaviour of one executor step: at most one record is
appended, and a record is appended precisely when the step neither aborts
nor takes the externally-managed skip path. -/
def AuditSpec (st : ApplyState) (a : PlanAction) (r : ApplyState × Option String) : Prop :=
  (r.1.audit = st.audit ∨ r.1.audit = st.audit ++ [a]) ∧
  (r.1.audit = st.audit ++ [a] ↔ (r.2 = none ∧ r.1.extSkipped = st.extSkipped))

theorem applyCreateTeam_audit (env : ApplyEnv) (st : ApplyState) (a : PlanAction) :
    AuditSpec st a (applyCreateTeam env st a) := by
  unfold AuditSpec applyCreateTeam
  cases hres : env.ensureTeam a.grafanaOrgID a.teamName <;>
    simp [hres, logCall, recordAction]

theorem applyCreateUser_audit (env : ApplyEnv) (st : ApplyState) (a : PlanAction) :
    AuditSpec st a (applyCreateUser env st a) := by
  unfold AuditSpec applyCreateUser
  generalize (if a.displayName == "" then a.email else a.displayName) = nm
  cases hres : env.createUser a.email a.email nm <;>
    simp [hres, logCall, recordAction]

theorem applyAddUserToOrg_audit (env : ApplyEnv) (st : ApplyState) (a : PlanAction) :
    AuditSpec st a (applyAddUserToOrg env st a) := by
  unfold AuditSpec applyAddUserToOrg
  cases hres : env.addUserToOrg a.grafanaOrgID a.email a.role <;>
    simp [hres, logCall, recordAction]

theorem updateUserRoleCall_audit (env : ApplyEnv) (st : ApplyState) (a : PlanAction) (id : Int) :
    AuditSpec st a (updateUserRoleCall env st a id) := by
  unfold AuditSpec updateUserRoleCall
  by_cases h : (id != 0) = true
  · simp only [h, if_true]
    cases hres : env.updateUserRole a.grafanaOrgID id a.role
    · by_cases hext : isExternallySyncedUserErr ‹_› = true
      all_goals simp_all [logCall, recordAction]
    · simp [hres, logCall, recordAction]
  · simp [h, recordAction]

theorem applyUpdateUserRole_audit (env : ApplyEnv) (st : ApplyState) (a : PlanAction) :
    AuditSpec st a (applyUpdateUserRole env st a) := by
  unfold applyUpdateUserRole
  by_cases h : ((if a.userID == 0 then (alookup st.userIDs a.email).getD 0 else a.userID) == 0) = true
  · simp only [h, if_true]
    cases hres : env.lookupUser a.email
    · simp [AuditSpec, hres, logCall]
    · simpa [AuditSpec, hres, logCall] using
        updateUserRoleCall_audit env (logCall st (.lookupUser a.email)) a _
  · simp only [h, if_false]
    exact updateUserRoleCall_audit env st a _

theorem addUserToTeamCall_audit (env : ApplyEnv) (st : ApplyState) (a : PlanAction)
    (teamId id : Int) : AuditSpec st a (addUserToTeamCall env st a teamId id) := by
  unfold AuditSpec addUserToTeamCall
  by_cases h : (id != 0) = true
  · simp only [h, if_true]
    cases hres : env.addUserToTeam teamId id a.teamRole <;>
      simp [hres, logCall, recordAction]
  · simp [h, recordAction]

theorem applyAddUserToTeam_audit (env : ApplyEnv) (st : ApplyState) (a : PlanAction) :
    AuditSpec st a (applyAddUserToTeam env st a) := by
  unfold applyAddUserToTeam
  by_cases ht : ((if a.teamID == 0 then (alookup st.teamIDs (teamKey a.orgID a.teamName)).getD 0 else a.teamID) == 0) = true
  · simp only [ht, if_true]
    simp [AuditSpec]
  · simp only [ht, if_false]
    by_cases h : ((if a.userID == 0 then (alookup st.userIDs a.email).getD 0 else a.userID) == 0) = true
    · simp only [h, if_true]
      cases hres : env.lookupUser a.email
      · simp [AuditSpec, hres, logCall]
      · simpa [AuditSpec, hres, logCall] using
          addUserToTeamCall_audit env (logCall st (.lookupUser a.email)) a _ _
    · simp only [h, if_false]
      exact addUserToTeamCall_audit env st a _ _

theorem updateTeamRoleCall_audit (env : ApplyEnv) (st : ApplyState) (a : PlanAction)
    (teamId id : Int) : AuditSpec st a (updateTeamRoleCall env st a teamId id) := by
  unfold AuditSpec updateTeamRoleCall
  by_cases h : (id != 0) = true
  · simp only [h, if_true]
    cases hres : env.updateTeamMemberRole teamId id a.teamRole <;>
      simp [hres, logCall, recordAction]
  · simp [h, recordAction]

theorem applyUpdateTeamRole_audit (env : ApplyEnv) (st : ApplyState) (a : PlanAction) :
    AuditSpec st a (applyUpdateTeamRole env st a) := by
  unfold applyUpdateTeamRole
  by_cases ht : ((if a.teamID == 0 then (alookup st.teamIDs (teamKey a.orgID a.teamName)).getD 0 else a.teamID) == 0) = true
  · simp only [ht, if_true]
    simp [AuditSpec]
  · simp only [ht, if_false]
    by_cases h : (a.userID == 0) = true
    · simp only [h, if_true]
      cases hres : env.lookupUser a.email
      · simp [AuditSpec, hres, logCall]
      · simpa [AuditSpec, hres, logCall] using
          updateTeamRoleCall_audit env (logCall st (.lookupUser a.email)) a _ _
    · simp only [h, if_false]
      exact updateTeamRoleCall_audit env st a _ _

theorem removeUserFromTeamCall_audit (env : ApplyEnv) (st : ApplyState) (a : PlanAction)
    (teamId id : Int) : AuditSpec st a (removeUserFromTeamCall env st a teamId id) := by
  unfold AuditSpec removeUserFromTeamCall
  by_cases h : (id != 0) = true
  · simp only [h, if_true]
    cases hres : env.removeUserFromTeam teamId id <;>
      simp [hres, logCall, recordAction]
  · simp [h, recordAction]

theorem applyRemoveUserFromTeam_audit (env : ApplyEnv) (st : ApplyState) (a : PlanAction) :
    AuditSpec st a (applyRemoveUserFromTeam env st a) := by
  unfold applyRemoveUserFromTeam
  by_cases ht : ((if a.teamID == 0 then (alookup st.teamIDs (teamKey a.orgID a.teamName)).getD 0 else a.teamID) == 0) = true
  · simp only [ht, if_true]
    simp [AuditSpec]
  · simp only [ht, if_false]
    by_cases h : (a.userID == 0) = true
    · simp only [h, if_true]
      cases hres : env.lookupUser a.email
      · simp [AuditSpec, hres, logCall]
      · simpa [AuditSpec, hres, logCall] using
          removeUserFromTeamCall_audit env (logCall st (.lookupUser a.email)) a _ _
    · simp only [h, if_false]
      exact removeUserFromTeamCall_audit env st a _ _

/-- C9 (amended): during execution an audit record for an action is
appended exactly once and precisely when the step completes without an
aborting error and without taking the externally-managed skip path on
`update_user_role` (which is logged but never recorded); in particular a
record is also appended when the platform call was skipped because the user
id resolved to zero, so "recorded" does not imply "executed against the
platform". -/
theorem c9_audit_amended (env : ApplyEnv) (st : ApplyState) (a : PlanAction) :
    ((applyAction env st a).1.audit = st.audit ∨
     (applyAction env st a).1.audit = st.audit ++ [a]) ∧
    ((applyAction env st a).1.audit = st.audit ++ [a] ↔
      ((applyAction env st a).2 = none ∧ a.actionType ∈ executableKinds ∧
       (applyAction env st a).1.extSkipped = st.extSkipped)) := by
  by_cases h1 : a.actionType = "create_team"
  · simpa [applyAction, h1, executableKinds, AuditSpec] using applyCreateTeam_audit env st a
  by_cases h2 : a.actionType = "create_user"
  · simpa [applyAction, h1, h2, executableKinds, AuditSpec] using applyCreateUser_audit env st a
  by_cases h3 : a.actionType = "add_user_to_org"
  · simpa [applyAction, h1, h2, h3, executableKinds, AuditSpec] using applyAddUserToOrg_audit env st a
  by_cases h4 : a.actionType = "update_user_role"
  · simpa [applyAction, h1, h2, h3, h4, executableKinds, AuditSpec] using applyUpdateUserRole_audit env st a
  by_cases h5 : a.actionType = "add_user_to_team"
  · simpa [applyAction, h1, h2, h3, h4, h5, executableKinds, AuditSpec] using applyAddUserToTeam_audit env st a
  by_cases h6 : a.actionType = "update_team_role"
  · simpa [applyAction, h1, h2, h3, h4, h5, h6, executableKinds, AuditSpec] using applyUpdateTeamRole_audit env st a
  by_cases h7 : a.actionType = "remove_user_from_team"
  · simpa [applyAction, h1, h2, h3, h4, h5, h6, h7, executableKinds, AuditSpec] using applyRemoveUserFromTeam_audit env st a
  · simp [applyAction, h1, h2, h3, h4, h5, h6, h7, executableKinds]

/-- Execution oracle for the C9 counterexample: every call succeeds, but
the ghost user does not exist on the platform. -/
def c9Env : ApplyEnv :=
  { ensureTeam := fun _ _ => .ok 10
    createUser := fun _ _ _ => .ok { id := 7 }
    addUserToOrg := fun _ _ _ => .ok ()
    updateUserRole := fun _ _ _ => .ok ()
    lookupUser := fun _ => .ok none
    addUserToTeam := fun _ _ _ => .ok ()
    updateTeamMemberRole := fun _ _ _ => .ok ()
    removeUserFromTeam := fun _ _ => .ok () }

/-- C9 counterexample action: an `update_user_role` whose user id resolves
to zero (no payload id, no cached id, lookup finds nothing). -/
def c9Action : PlanAction :=
  { actionType := "update_user_role", orgID := 1, grafanaOrgID := 1,
    userID := 0, email := "ghost@example.com", role := "Viewer" }

/-- C9 counterexample: `ApplyPlan` finishes without error, appends an audit
record for the action, yet the only platform call issued is the user
lookup — the `UpdateUserRole` platform call was never made, refuting
"an audit record is appended only if the action was executed against the
platform". -/
theorem c9_audit_counterexample :
    (ApplyPlan c9Env [c9Action]).2 = none ∧
    (ApplyPlan c9Env [c9Action]).1.audit = [c9Action] ∧
    (ApplyPlan c9Env [c9Action]).1.calls = [PlatformCall.lookupUser "ghost@example.com"] := by
  decide

/-! ## Characterization lemmas for the map model -/

theorem alookup_append {κ β : Type} [BEq κ] [LawfulBEq κ] (m m2 : List (κ × β)) (k : κ) :
    alookup (m ++ m2) k = (alookup m k).orElse (fun _ => alookup m2 k) := by
  induction m with
  | nil => simp [alookup_nil]
  | cons hd tl ih =>
    rcases hd with ⟨k1, v1⟩
    rw [List.cons_append, alookup_cons, alookup_cons]
    by_cases h : (k1 == k) = true
    · simp [h]
    · simp [h, ih]

theorem alookup_map_replace_ne {κ β : Type} [BEq κ] [LawfulBEq κ] (m : List (κ × β)) (k2 k : κ) (v : β)
    (h : (k2 == k) = false) :
    alookup (m.map (fun p => if p.1 == k2 then (k2, v) else p)) k = alookup m k := by
  induction m with
  | nil => rfl
  | cons hd tl ih =>
    rcases hd with ⟨k1, v1⟩
    rw [List.map_cons]
    by_cases h1 : (k1 == k2) = true
    · have hk1 : k1 = k2 := by simpa using h1
      subst hk1
      simp only [h1, if_true]
      rw [alookup_cons, alookup_cons]
      simp [h, ih]
    · simp only [h1, if_false]
      rw [alookup_cons, alookup_cons]
      by_cases h2 : (k1 == k) = true
      · simp [h2]
      · simp [h2, ih]

theorem alookup_ainsert {κ β : Type} [BEq κ] [LawfulBEq κ] (m : List (κ × β)) (k2 : κ) (v : β) (k : κ) :
    alookup (ainsert m k2 v) k = if k2 == k then some v else alookup m k := by
  by_cases hk : (k2 == k) = true
  · have hkk : k2 = k := by simpa using hk
    subst hkk
    rw [if_pos hk]
    unfold ainsert
    split
    · next hfind =>
      clear hk
      induction m with
      | nil => simp [List.find?] at hfind
      | cons hd tl ih =>
        rcases hd with ⟨k1, v1⟩
        rw [List.map_cons]
        by_cases h1 : (k1 == k2) = true
        · simp only [h1, if_true]
          rw [alookup_cons, if_pos (beq_self_eq_true k2)]
        · simp only [h1, if_false]
          rw [alookup_cons]
          simp only [h1, Bool.false_eq_true, if_false]
          apply ih
          rw [List.find?_cons_of_neg _ (by simpa using h1)] at hfind
          exact hfind
    · rw [alookup_append]
      cases halk : alookup m k2 with
      | some w =>
        next hfind =>
        exfalso
        unfold alookup at halk
        cases hf : List.find? (fun p => p.1 == k2) m with
        | none => rw [hf] at halk; simp at halk
        | some p => exact hfind (by rw [hf]; rfl)
      | none =>
        rw [alookup_cons]
        simp [Option.orElse, alookup_nil]
  · have hk2 : (k2 == k) = false := by simpa using hk
    rw [if_neg (by simp [hk2])]
    unfold ainsert
    split
    · exact alookup_map_replace_ne m k2 k v hk2
    · rw [alookup_append]
      cases halk : alookup m k with
      | some w => rfl
      | none =>
        rw [alookup_cons]
        simp [Option.orElse, hk2, alookup_nil]

theorem alookup_mem {κ β : Type} [BEq κ] [LawfulBEq κ] (m : List (κ × β)) (k : κ) (v : β) (h : alookup m k = some v) :
    ∃ p, p ∈ m ∧ (p.1 == k) = true ∧ p.2 = v := by
  unfold alookup at h
  cases hf : m.find? (fun p => p.1 == k) with
  | none => rw [hf] at h; simp at h
  | some p =>
    rw [hf] at h
    simp at h
    have hp : (p.1 == k) = true := by simpa using List.find?_some hf
    exact ⟨p, List.mem_of_find?_eq_some hf, hp, h⟩

theorem alookup_none {κ β : Type} [BEq κ] [LawfulBEq κ] (m : List (κ × β)) (k : κ) (h : alookup m k = none) :
    ∀ p ∈ m, (p.1 == k) = false := by
  unfold alookup at h
  cases hf : m.find? (fun p => p.1 == k) with
  | none =>
    intro p hp
    have := List.find?_eq_none.mp hf p hp
    simpa using this
  | some p => rw [hf] at h; simp at h

theorem ainsert_pairs {κ β : Type} [BEq κ] [LawfulBEq κ] (m : List (κ × β)) (k : κ) (v : β) :
    ∀ p ∈ ainsert m k v, p ∈ m ∨ p = (k, v) := by
  intro p hp
  unfold ainsert at hp
  split at hp
  · rcases List.mem_map.mp hp with ⟨q, hq, hqe⟩
    by_cases h : (q.1 == k) = true
    · right
      rw [← hqe]
      simp [h]
    · left
      rw [← hqe]
      simp [h]
      exact hq
  · rcases List.mem_append.mp hp with h | h
    · exact Or.inl h
    · simp at h
      exact Or.inr h

/-! ## Helper lemmas about action-list evolution -/

/-- A `List.set` that only changes the `teamRole` of an element preserves
existence of an element satisfying a `teamRole`-independent property. -/
theorem exists_mem_set_teamRole (P : PlanAction → Prop)
    (hP : ∀ x r, P x → P { x with teamRole := r }) :
    ∀ (l : List PlanAction) (i : Nat) (x : PlanAction), l.get? i = some x →
      ∀ r, (∃ a ∈ l, P a) → ∃ a ∈ l.set i { x with teamRole := r }, P a := by
  intro l
  induction l with
  | nil => intro i x hx; simp at hx
  | cons hd tl ih =>
    intro i x hx r h
    cases i with
    | zero =>
      simp only [List.get?] at hx
      cases hx
      rcases h with ⟨a, ha, hPa⟩
      rcases List.mem_cons.mp ha with rfl | ha
      · exact ⟨{ a with teamRole := r }, by simp [List.set], hP a r hPa⟩
      · exact ⟨a, by simp [List.set, ha], hPa⟩
    | succ i =>
      simp only [List.get?] at hx
      rcases h with ⟨a, ha, hPa⟩
      rcases List.mem_cons.mp ha with rfl | ha
      · exact ⟨a, by simp [List.set], hPa⟩
      · rcases ih i x hx r ⟨a, ha, hPa⟩ with ⟨b, hb, hPb⟩
        exact ⟨b, by simp [List.set, hb], hPb⟩

/-- A `List.set` that only changes the `teamRole` of an element preserves a
universally quantified `teamRole`-independent property. -/
theorem forall_mem_set_teamRole (Q : PlanAction → Prop)
    (hQ : ∀ x r, Q x → Q { x with teamRole := r }) :
    ∀ (l : List PlanAction) (i : Nat) (x : PlanAction), l.get? i = some x →
      ∀ r, (∀ a ∈ l, Q a) → ∀ a ∈ l.set i { x with teamRole := r }, Q a := by
  intro l
  induction l with
  | nil => intro i x hx; simp at hx
  | cons hd tl ih =>
    intro i x hx r h a ha
    cases i with
    | zero =>
      simp only [List.get?] at hx
      cases hx
      rcases List.mem_cons.mp (by simpa [List.set] using ha) with rfl | ha2
      · exact hQ hd r (h hd (List.mem_cons_self hd tl))
      · exact h a (List.mem_cons_of_mem _ ha2)
    | succ i =>
      simp only [List.get?] at hx
      rcases List.mem_cons.mp (by simpa [List.set] using ha) with rfl | ha2
      · exact h a (List.mem_cons_self a tl)
      · exact ih i x hx r (fun b hb => h b (List.mem_cons_of_mem _ hb)) a ha2

/-- A `List.set` that only changes the `teamRole` of an element leaves any
`teamRole`-independent count unchanged. -/
theorem countP_set_teamRole (p : PlanAction → Bool)
    (hp : ∀ x r, p { x with teamRole := r } = p x) :
    ∀ (l : List PlanAction) (i : Nat) (x : PlanAction), l.get? i = some x →
      ∀ r, (l.set i { x with teamRole := r }).countP p = l.countP p := by
  intro l
  induction l with
  | nil => intro i x hx; simp at hx
  | cons hd tl ih =>
    intro i x hx r
    cases i with
    | zero =>
      simp only [List.get?] at hx
      cases hx
      simp [List.set, List.countP_cons, hp]
    | succ i =>
      simp only [List.get?] at hx
      simp [List.set, List.countP_cons, ih i x hx r]

/-- A fold whose steps only append elements satisfying `Q` produces the
original list followed by a suffix of `Q`-elements. -/
theorem foldl_appends {α : Type} (Q : PlanAction → Prop)
    (f : List PlanAction → α → List PlanAction)
    (hf : ∀ acts x, ∃ news, f acts x = acts ++ news ∧ ∀ a ∈ news, Q a) :
    ∀ (l : List α) (acts : List PlanAction),
      ∃ rest, List.foldl f acts l = acts ++ rest ∧ ∀ a ∈ rest, Q a := by
  intro l
  induction l with
  | nil => intro acts; exact ⟨[], by simp, by simp⟩
  | cons x t ih =>
    intro acts
    rcases hf acts x with ⟨news, heq, hnews⟩
    rcases ih (f acts x) with ⟨rest, heq2, hrest⟩
    refine ⟨news ++ rest, ?_, ?_⟩
    · rw [List.foldl_cons, heq2, heq, List.append_assoc]
    · intro a ha
      rcases List.mem_append.mp ha with h | h
      · exact hnews a h
      · exact hrest a h

/-- The org-role pass produces the phase-1 actions followed by org-role
actions only. -/
theorem orgRolePass_append (orgByID : List (Int × Org))
    (oue : List (Int × List (String × OrgUser))) (st : BuildState) :
    ∃ rest, orgRolePass orgByID oue st = st.actions ++ rest ∧
      ∀ a ∈ rest, a.actionType = "add_user_to_org" ∨ a.actionType = "update_user_role" := by
  unfold orgRolePass
  refine foldl_appends _ _ ?_ _ _
  intro acts p
  refine foldl_appends _ _ ?_ p.2 acts
  intro acts2 q
  simp only
  split
  · exact ⟨[_], rfl, by simp⟩
  · split
    · exact ⟨[_], rfl, by simp⟩
    · exact ⟨[], by simp, by simp⟩

/-- Every pair of the `orgByID` index satisfies `value.id = key`. -/
theorem orgIndex_pairs (orgs : List Org) : ∀ p ∈ orgIndex orgs, p.2.id = p.1 := by
  have main : ∀ (l : List Org) (m : List (Int × Org)), (∀ p ∈ m, p.2.id = p.1) →
      ∀ p ∈ l.foldl (fun m org => ainsert m org.id org) m, p.2.id = p.1 := by
    intro l
    induction l with
    | nil => intro m hm; exact hm
    | cons org t ih =>
      intro m hm
      refine ih (ainsert m org.id org) ?_
      intro p hp
      rcases ainsert_pairs m org.id org p hp with h | h
      · exact hm p h
      · rw [h]
  exact main orgs [] (by simp)

/-- A successful `orgByID` lookup returns an org whose id is the queried
key. -/
theorem alookup_orgIndex_id (orgs : List Org) (k : Int) (org : Org)
    (h : alookup (orgIndex orgs) k = some org) : org.id = k := by
  rcases alookup_mem _ _ _ h with ⟨p, hp, hk, hv⟩
  have hid := orgIndex_pairs orgs p hp
  have hk2 : p.1 = k := by simpa using hk
  rw [← hv, hid, hk2]

/-! ## Generic fold-invariant helpers -/

/-- Invariance of a predicate under a fold whose steps preserve it. -/
theorem foldl_inv {α σ : Type} (I : σ → Prop) (f : σ → α → σ)
    (hf : ∀ s x, I s → I (f s x)) :
    ∀ (l : List α) (s : σ), I s → I (List.foldl f s l) := by
  intro l
  induction l with
  | nil => intro s hs; exact hs
  | cons x t ih => intro s hs; exact ih (f s x) (hf s x hs)

/-- Invariance of a predicate under a fold whose steps preserve it for the
elements actually folded over. -/
theorem foldl_inv_mem {α σ : Type} (I : σ → Prop) (f : σ → α → σ) :
    ∀ (l : List α), (∀ x ∈ l, ∀ s, I s → I (f s x)) →
      ∀ s : σ, I s → I (List.foldl f s l) := by
  intro l
  induction l with
  | nil => intro _ s hs; exact hs
  | cons x t ih =>
    intro hf s hs
    exact ih (fun y hy s2 hs2 => hf y (List.mem_cons_of_mem _ hy) s2 hs2)
      (f s x) (hf x (List.mem_cons_self x t) s hs)

/-! ## C10: team search failure still plans creation -/

def NoTeamTouch (tOrg : Int) (tName : String) (a : PlanAction) : Prop :=
  (a.actionType = "remove_user_from_team" ∨ a.actionType = "update_team_role") →
    ¬(a.orgID = tOrg ∧ a.teamName = tName)

theorem wet_noTeamTouch (tOrg : Int) (tName : String)
    (orgNameByID : List (Int × String)) (org : Org) (mapping : Mapping)
    (teamID : Int) (role roleSource : String) (haveM : List (String × TeamMember))
    (st : BuildState) (email : String) (user : Option GrafanaUser)
    (hsafe : (org.id = tOrg ∧ mapping.grafanaTeamName = tName) → haveM = [])
    (h : ∀ a ∈ st.actions, NoTeamTouch tOrg tName a) :
    ∀ a ∈ (wantEntryTail orgNameByID org mapping teamID role roleSource haveM st email user).actions,
      NoTeamTouch tOrg tName a := by
  unfold wantEntryTail
  simp only [apply_ite BuildState.actions, apply_ite BuildState.addedTeamUsers,
    apply_ite BuildState.teamRoleByTeamEmail, apply_ite BuildState.updatedTeamRoles, ite_self]
  cases hhave : alookup haveM email with
  | none =>
    simp only [hhave]
    try simp only [apply_ite BuildState.actions, ite_self]
    cases hadd : alookup st.addedTeamUsers (teamKey org.id mapping.grafanaTeamName ++ ":" ++ email) with
    | some idx =>
      simp only [hadd]
      cases hget : st.actions.get? idx with
      | some a0 =>
        simp only [hget]
        simp only [apply_ite BuildState.actions, ite_self]
        split <;> split <;>
          first
            | exact h
            | exact forall_mem_set_teamRole _ (fun x r hx => hx) _ _ _ hget _ h
      | none =>
        simp only [hget]
        simp only [apply_ite BuildState.actions, ite_self]
        exact h
    | none =>
      simp only [hadd]
      try simp only [apply_ite BuildState.actions, ite_self]
      intro a ha
      rcases List.mem_append.mp ha with ha | ha
      · exact h a ha
      · simp at ha
        subst ha
        intro hty
        rcases hty with hty | hty <;> simp at hty
  | some tm =>
    simp only [hhave]
    try simp only [apply_ite BuildState.actions, ite_self]
    split
    · split
      · exact h
      · intro a ha
        rcases List.mem_append.mp ha with ha | ha
        · exact h a ha
        · simp at ha
          subst ha
          intro _ hmatch
          have hhave2 := hsafe ⟨hmatch.1, hmatch.2⟩
          rw [hhave2] at hhave
          simp [alookup_nil] at hhave
    · exact h

theorem pwe_noTeamTouch (tOrg : Int) (tName : String) (cfg : SyncConfig)
    (genv : GrafanaEnv) (orgNameByID : List (Int × String)) (org : Org)
    (mapping : Mapping) (teamID : Int) (role roleSource : String)
    (haveM : List (String × TeamMember)) (st : BuildState) (email : String)
    (member : Member)
    (hsafe : (org.id = tOrg ∧ mapping.grafanaTeamName = tName) → haveM = [])
    (h : ∀ a ∈ st.actions, NoTeamTouch tOrg tName a) :
    ∀ a ∈ (processWantEntry cfg genv orgNameByID org mapping teamID role roleSource haveM st email member).actions,
      NoTeamTouch tOrg tName a := by
  unfold processWantEntry
  cases hcache : alookup st.userCache email with
  | some u =>
    simp only [hcache]
    cases u with
    | none =>
      by_cases hc : (!cfg.allowCreateUsers) = true
      · rw [if_pos hc]
        intro a ha
        have ha2 := ha
        simp at ha2
        rcases ha2 with ha2 | rfl
        · exact h a ha2
        · intro hty
          rcases hty with hty | hty <;> simp at hty
      · rw [if_neg hc]
        dsimp only
        apply wet_noTeamTouch tOrg tName _ _ _ _ _ _ _ _ _ _ hsafe
        intro a ha
        have ha2 := ha
        simp at ha2
        rcases ha2 with ha2 | rfl
        · exact h a ha2
        · intro hty
          rcases hty with hty | hty <;> simp at hty
    | some u0 =>
      exact wet_noTeamTouch tOrg tName _ _ _ _ _ _ _ _ _ _ hsafe h
  | none =>
    simp only [hcache]
    cases hlk : genv.lookupUser email with
    | none =>
      simp only [hlk]
      exact h
    | some found =>
      simp only [hlk]
      cases found with
      | none =>
        by_cases hc : (!cfg.allowCreateUsers) = true
        · rw [if_pos hc]
          intro a ha
          have ha2 := ha
          simp at ha2
          rcases ha2 with ha2 | rfl
          · exact h a ha2
          · intro hty
            rcases hty with hty | hty <;> simp at hty
        · rw [if_neg hc]
          dsimp only
          apply wet_noTeamTouch tOrg tName _ _ _ _ _ _ _ _ _ _ hsafe
          intro a ha
          have ha2 := ha
          simp at ha2
          rcases ha2 with ha2 | rfl
          · exact h a ha2
          · intro hty
            rcases hty with hty | hty <;> simp at hty
      | some u0 =>
        exact wet_noTeamTouch tOrg tName _ _ _ _ _ _ _ _ _ _ hsafe h

theorem mem_ite_append_actions (c : Prop) [Decidable c] (s : BuildState)
    (news : List PlanAction) (a : PlanAction)
    (ha : a ∈ (if c then s else { s with actions := s.actions ++ news }).actions) :
    a ∈ s.actions ∨ a ∈ news := by
  by_cases hc : c
  · rw [if_pos hc] at ha
    exact Or.inl ha
  · rw [if_neg hc] at ha
    simpa using ha

theorem pm_noTeamTouch (tOrg : Int) (tName : String) (cfg : SyncConfig)
    (genv : GrafanaEnv) (eenv : EntraEnv) (orgByID : List (Int × Org))
    (orgNameByID : List (Int × String)) (m : Mapping)
    (hsafe2 : ∀ org2, alookup orgByID m.orgID = some org2 →
      (org2.id = tOrg ∧ m.grafanaTeamName = tName) → resolveTeamID genv org2 m = 0)
    (st : BuildState) (h : ∀ a ∈ st.actions, NoTeamTouch tOrg tName a) :
    ∀ a ∈ (processMapping cfg genv eenv orgByID orgNameByID st m).actions,
      NoTeamTouch tOrg tName a := by
  unfold processMapping
  cases horg : alookup orgByID m.orgID with
  | none => simp only [horg]; exact h
  | some org =>
    simp only [horg]
    try dsimp only
    have hst2 : ∀ a ∈ (if (resolveTeamID genv org m == 0) = true then
        ({ st with actions := st.actions ++
          [{ actionType := "create_team", orgID := org.id, grafanaOrgID := org.grafanaOrgID,
             teamName := m.grafanaTeamName, teamRole := normalizeTeamRole m.teamRole,
             externalGroupID := m.externalGroupID,
             note := mappingNote ((alookup orgNameByID org.id).getD "") m }] } : BuildState)
        else st).actions, NoTeamTouch tOrg tName a := by
      split
      · intro a ha
        have ha2 := ha
        simp at ha2
        rcases ha2 with ha2 | rfl
        · exact h a ha2
        · intro hty
          rcases hty with hty | hty <;> simp at hty
      · exact h
    cases hmem : eenv.listGroupMembers m.externalGroupID with
    | none =>
      simp only [hmem]
      exact hst2
    | some members =>
      simp only [hmem]
      try dsimp only
      split
      · exact hst2
      · next haveM heq =>
        have hsafeM : (org.id = tOrg ∧ m.grafanaTeamName = tName) → haveM = [] := by
          intro hmatch
          have h0 := hsafe2 org horg hmatch
          rw [h0] at heq
          simpa using heq.symm
        split
        · refine foldl_inv_mem (fun (s : BuildState) => ∀ a ∈ s.actions, NoTeamTouch tOrg tName a) _ _ ?_ _ ?_
          · intro p hp s hs
            by_cases hmatch : (org.id = tOrg ∧ m.grafanaTeamName = tName)
            · rw [hsafeM hmatch] at hp
              simp at hp
            · intro a ha
              rcases mem_ite_append_actions _ _ _ a ha with ha2 | ha2
              · exact hs a ha2
              · simp at ha2
                subst ha2
                intro _ hpair
                exact hmatch ⟨hpair.1, hpair.2⟩
          · refine foldl_inv (fun (s : BuildState) => ∀ a ∈ s.actions, NoTeamTouch tOrg tName a) _ ?_ _ _ ?_
            · intro s p hs
              exact pwe_noTeamTouch tOrg tName cfg genv orgNameByID org m _ _ _ haveM s p.1 p.2 hsafeM hs
            · intro a ha
              exact hst2 a (by simpa using ha)
        · refine foldl_inv (fun (s : BuildState) => ∀ a ∈ s.actions, NoTeamTouch tOrg tName a) _ ?_ _ _ ?_
          · intro s p hs
            exact pwe_noTeamTouch tOrg tName cfg genv orgNameByID org m _ _ _ haveM s p.1 p.2 hsafeM hs
          · intro a ha
            exact hst2 a (by simpa using ha)

theorem exists_ite_append_actions (P : PlanAction → Prop) (c : Prop) [Decidable c]
    (s : BuildState) (news : List PlanAction)
    (h : ∃ a ∈ s.actions, P a) :
    ∃ a ∈ (if c then s else { s with actions := s.actions ++ news }).actions, P a := by
  rcases h with ⟨b, hb, hPb⟩
  by_cases hc : c
  · rw [if_pos hc]
    exact ⟨b, hb, hPb⟩
  · rw [if_neg hc]
    exact ⟨b, List.mem_append_left _ hb, hPb⟩

theorem wet_exists (P : PlanAction → Prop)
    (hP : ∀ x r, P x → P { x with teamRole := r })
    (orgNameByID : List (Int × String)) (org : Org) (mapping : Mapping)
    (teamID : Int) (role roleSource : String) (haveM : List (String × TeamMember))
    (st : BuildState) (email : String) (user : Option GrafanaUser)
    (h : ∃ a ∈ st.actions, P a) :
    ∃ a ∈ (wantEntryTail orgNameByID org mapping teamID role roleSource haveM st email user).actions,
      P a := by
  unfold wantEntryTail
  simp only [apply_ite BuildState.actions, apply_ite BuildState.addedTeamUsers,
    apply_ite BuildState.teamRoleByTeamEmail, apply_ite BuildState.updatedTeamRoles, ite_self]
  cases hhave : alookup haveM email with
  | none =>
    simp only [hhave]
    try simp only [apply_ite BuildState.actions, ite_self]
    cases hadd : alookup st.addedTeamUsers (teamKey org.id mapping.grafanaTeamName ++ ":" ++ email) with
    | some idx =>
      simp only [hadd]
      cases hget : st.actions.get? idx with
      | some a0 =>
        simp only [hget]
        simp only [apply_ite BuildState.actions, ite_self]
        split <;> split <;>
          first
            | exact h
            | exact exists_mem_set_teamRole P hP _ _ _ hget _ h
      | none =>
        simp only [hget]
        simp only [apply_ite BuildState.actions, ite_self]
        exact h
    | none =>
      simp only [hadd]
      try simp only [apply_ite BuildState.actions, ite_self]
      rcases h with ⟨b, hb, hPb⟩
      exact ⟨b, List.mem_append_left _ hb, hPb⟩
  | some tm =>
    simp only [hhave]
    try simp only [apply_ite BuildState.actions, ite_self]
    split
    · split
      · exact h
      · rcases h with ⟨b, hb, hPb⟩
        exact ⟨b, List.mem_append_left _ hb, hPb⟩
    · exact h

theorem pwe_exists (P : PlanAction → Prop)
    (hP : ∀ x r, P x → P { x with teamRole := r })
    (cfg : SyncConfig) (genv : GrafanaEnv) (orgNameByID : List (Int × String))
    (org : Org) (mapping : Mapping) (teamID : Int) (role roleSource : String)
    (haveM : List (String × TeamMember)) (st : BuildState) (email : String)
    (member : Member)
    (h : ∃ a ∈ st.actions, P a) :
    ∃ a ∈ (processWantEntry cfg genv orgNameByID org mapping teamID role roleSource haveM st email member).actions,
      P a := by
  have happ : ∀ (st2 : BuildState) (act : PlanAction), (∃ a ∈ st2.actions, P a) →
      ∃ a ∈ st2.actions ++ [act], P a := by
    intro st2 act h2
    rcases h2 with ⟨b, hb, hPb⟩
    exact ⟨b, List.mem_append_left _ hb, hPb⟩
  unfold processWantEntry
  cases hcache : alookup st.userCache email with
  | some u =>
    simp only [hcache]
    cases u with
    | none =>
      by_cases hc : (!cfg.allowCreateUsers) = true
      · rw [if_pos hc]
        exact happ _ _ h
      · rw [if_neg hc]
        dsimp only
        exact wet_exists P hP _ _ _ _ _ _ _ _ _ _ (happ _ _ h)
    | some u0 =>
      exact wet_exists P hP _ _ _ _ _ _ _ _ _ _ h
  | none =>
    simp only [hcache]
    cases hlk : genv.lookupUser email with
    | none =>
      simp only [hlk]
      exact h
    | some found =>
      simp only [hlk]
      cases found with
      | none =>
        by_cases hc : (!cfg.allowCreateUsers) = true
        · rw [if_pos hc]
          exact happ _ _ h
        · rw [if_neg hc]
          dsimp only
          exact wet_exists P hP _ _ _ _ _ _ _ _ _ _ (happ _ _ h)
      | some u0 =>
        exact wet_exists P hP _ _ _ _ _ _ _ _ _ _ h

theorem pm_exists (P : PlanAction → Prop)
    (hP : ∀ x r, P x → P { x with teamRole := r })
    (cfg : SyncConfig) (genv : GrafanaEnv) (eenv : EntraEnv)
    (orgByID : List (Int × Org)) (orgNameByID : List (Int × String))
    (m : Mapping) (st : BuildState)
    (h : ∃ a ∈ st.actions, P a) :
    ∃ a ∈ (processMapping cfg genv eenv orgByID orgNameByID st m).actions, P a := by
  unfold processMapping
  cases horg : alookup orgByID m.orgID with
  | none => simp only [horg]; exact h
  | some org =>
    simp only [horg]
    try dsimp only
    have hst2 : ∃ a ∈ (if (resolveTeamID genv org m == 0) = true then
        ({ st with actions := st.actions ++
          [{ actionType := "create_team", orgID := org.id, grafanaOrgID := org.grafanaOrgID,
             teamName := m.grafanaTeamName, teamRole := normalizeTeamRole m.teamRole,
             externalGroupID := m.externalGroupID,
             note := mappingNote ((alookup orgNameByID org.id).getD "") m }] } : BuildState)
        else st).actions, P a := by
      split
      · rcases h with ⟨b, hb, hPb⟩
        exact ⟨b, List.mem_append_left _ hb, hPb⟩
      · exact h
    cases hmem : eenv.listGroupMembers m.externalGroupID with
    | none =>
      simp only [hmem]
      exact hst2
    | some members =>
      simp only [hmem]
      try dsimp only
      split
      · exact hst2
      · next haveM heq =>
        have hwantBase : ∃ a ∈ (if (resolveTeamID genv org m == 0) = true then
            ({ st with actions := st.actions ++
              [{ actionType := "create_team", orgID := org.id, grafanaOrgID := org.grafanaOrgID,
                 teamName := m.grafanaTeamName, teamRole := normalizeTeamRole m.teamRole,
                 externalGroupID := m.externalGroupID,
                 note := mappingNote ((alookup orgNameByID org.id).getD "") m }] } : BuildState)
            else st).actions, P a := hst2
        split
        · refine foldl_inv_mem (fun (s : BuildState) => ∃ a ∈ s.actions, P a) _ _ ?_ _ ?_
          · intro p hp s hs
            exact exists_ite_append_actions P _ _ _ hs
          · refine foldl_inv (fun (s : BuildState) => ∃ a ∈ s.actions, P a) _ ?_ _ _ ?_
            · intro s p hs
              exact pwe_exists P hP cfg genv orgNameByID org m _ _ _ haveM s p.1 p.2 hs
            · rcases hwantBase with ⟨b, hb, hPb⟩
              exact ⟨b, by simpa using hb, hPb⟩
        · refine foldl_inv (fun (s : BuildState) => ∃ a ∈ s.actions, P a) _ ?_ _ _ ?_
          · intro s p hs
            exact pwe_exists P hP cfg genv orgNameByID org m _ _ _ haveM s p.1 p.2 hs
          · rcases hwantBase with ⟨b, hb, hPb⟩
            exact ⟨b, by simpa using hb, hPb⟩

theorem pm_introduces (cfg : SyncConfig) (genv : GrafanaEnv) (eenv : EntraEnv)
    (orgByID : List (Int × Org)) (orgNameByID : List (Int × String))
    (m : Mapping) (org : Org) (st : BuildState)
    (horg : alookup orgByID m.orgID = some org)
    (hres0 : resolveTeamID genv org m = 0) :
    ∃ a ∈ (processMapping cfg genv eenv orgByID orgNameByID st m).actions,
      a.actionType = "create_team" ∧ a.orgID = org.id ∧
      a.grafanaOrgID = org.grafanaOrgID ∧ a.teamName = m.grafanaTeamName := by
  unfold processMapping
  simp only [horg]
  try dsimp only
  rw [hres0]
  simp only [show ((0 : Int) == 0) = true from rfl, if_true]
  have hbase : ∃ a ∈ ({ st with actions := st.actions ++
      [{ actionType := "create_team", orgID := org.id, grafanaOrgID := org.grafanaOrgID,
         teamName := m.grafanaTeamName, teamRole := normalizeTeamRole m.teamRole,
         externalGroupID := m.externalGroupID,
         note := mappingNote ((alookup orgNameByID org.id).getD "") m }] } : BuildState).actions,
      a.actionType = "create_team" ∧ a.orgID = org.id ∧
      a.grafanaOrgID = org.grafanaOrgID ∧ a.teamName = m.grafanaTeamName := by
    refine ⟨_, List.mem_append_right _ (List.mem_singleton_self _), rfl, rfl, rfl, rfl⟩
  cases hmem : eenv.listGroupMembers m.externalGroupID with
  | none =>
    simp only [hmem]
    exact hbase
  | some members =>
    simp only [hmem]
    try dsimp only
    split
    · exact hbase
    · next haveM heq =>
      split
      · refine foldl_inv_mem (fun (s : BuildState) => ∃ a ∈ s.actions,
            a.actionType = "create_team" ∧ a.orgID = org.id ∧
            a.grafanaOrgID = org.grafanaOrgID ∧ a.teamName = m.grafanaTeamName) _ _ ?_ _ ?_
        · intro p hp s hs
          exact exists_ite_append_actions _ _ _ _ hs
        · refine foldl_inv (fun (s : BuildState) => ∃ a ∈ s.actions,
              a.actionType = "create_team" ∧ a.orgID = org.id ∧
              a.grafanaOrgID = org.grafanaOrgID ∧ a.teamName = m.grafanaTeamName) _ ?_ _ _ ?_
          · intro s p hs
            exact pwe_exists _ (fun x r hx => hx) cfg genv orgNameByID org m _ _ _ haveM s p.1 p.2 hs
          · rcases hbase with ⟨b, hb, hPb⟩
            exact ⟨b, by simpa using hb, hPb⟩
      · refine foldl_inv (fun (s : BuildState) => ∃ a ∈ s.actions,
            a.actionType = "create_team" ∧ a.orgID = org.id ∧
            a.grafanaOrgID = org.grafanaOrgID ∧ a.teamName = m.grafanaTeamName) _ ?_ _ _ ?_
        · intro s p hs
          exact pwe_exists _ (fun x r hx => hx) cfg genv orgNameByID org m _ _ _ haveM s p.1 p.2 hs
        · rcases hbase with ⟨b, hb, hPb⟩
          exact ⟨b, by simpa using hb, hPb⟩

/-- C10: when a mapping's cached team id is zero and the platform team
lookup fails with an error, `BuildPlan` does not skip the mapping: the plan
contains a `create_team` action for that mapping's org and team name, and —
since the membership diff for that team is computed against an empty actual
member set — no `remove_user_from_team` or `update_team_role` action for
that (org, team) appears anywhere in the plan (assuming no other mapping
carries a cached id for the same team). -/
theorem c10_search_error_plans_creation (cfg : SyncConfig) (genv : GrafanaEnv)
    (eenv : EntraEnv) (orgs : List Org) (mappings : List Mapping)
    (m : Mapping) (org : Org)
    (hm : m ∈ mappings)
    (horg : alookup (orgIndex orgs) m.orgID = some org)
    (hid : m.grafanaTeamID = 0)
    (hsearch : genv.searchTeam org.grafanaOrgID m.grafanaTeamName = none)
    (hall : ∀ m2 ∈ mappings, m2.orgID = m.orgID → m2.grafanaTeamName = m.grafanaTeamName →
      m2.grafanaTeamID = 0) :
    (∃ a ∈ BuildPlan cfg genv eenv orgs mappings,
      a.actionType = "create_team" ∧ a.orgID = org.id ∧
      a.grafanaOrgID = org.grafanaOrgID ∧ a.teamName = m.grafanaTeamName) ∧
    (∀ a ∈ BuildPlan cfg genv eenv orgs mappings,
      (a.actionType = "remove_user_from_team" ∨ a.actionType = "update_team_role") →
      ¬(a.orgID = org.id ∧ a.teamName = m.grafanaTeamName)) := by
  have hres0 : resolveTeamID genv org m = 0 := by
    unfold resolveTeamID
    rw [hid]
    simp [hsearch]
  have horgid : org.id = m.orgID := alookup_orgIndex_id orgs m.orgID org horg
  rcases orgRolePass_append (orgIndex orgs) (collectOrgUsers genv orgs)
    (buildPhase1 cfg genv eenv orgs mappings) with ⟨rest, hplan, hrest⟩
  have hphase1ex : ∃ a ∈ (buildPhase1 cfg genv eenv orgs mappings).actions,
      a.actionType = "create_team" ∧ a.orgID = org.id ∧
      a.grafanaOrgID = org.grafanaOrgID ∧ a.teamName = m.grafanaTeamName := by
    rcases List.append_of_mem hm with ⟨l1, l2, hsplit⟩
    unfold buildPhase1
    rw [hsplit, List.foldl_append, List.foldl_cons]
    refine foldl_inv (fun (s : BuildState) => ∃ a ∈ s.actions,
        a.actionType = "create_team" ∧ a.orgID = org.id ∧
        a.grafanaOrgID = org.grafanaOrgID ∧ a.teamName = m.grafanaTeamName) _ ?_ _ _ ?_
    · intro s m2 hs
      exact pm_exists _ (fun x r hx => hx) cfg genv eenv _ _ m2 s hs
    · exact pm_introduces cfg genv eenv _ _ m org _ horg hres0
  have hphase1no : ∀ a ∈ (buildPhase1 cfg genv eenv orgs mappings).actions,
      NoTeamTouch org.id m.grafanaTeamName a := by
    unfold buildPhase1
    refine foldl_inv_mem (fun (s : BuildState) => ∀ a ∈ s.actions,
        NoTeamTouch org.id m.grafanaTeamName a) _ _ ?_ _ ?_
    · intro m2 hm2 s hs
      refine pm_noTeamTouch org.id m.grafanaTeamName cfg genv eenv _ _ m2 ?_ s hs
      intro org2 horg2 hmatch
      have horg2id : org2.id = m2.orgID := alookup_orgIndex_id orgs m2.orgID org2 horg2
      have hsameorg : m2.orgID = m.orgID := by
        rw [← horg2id, hmatch.1, horgid]
      have horg2eq : org2 = org := by
        rw [hsameorg] at horg2
        rw [horg] at horg2
        exact (Option.some_injective _ horg2).symm
      have hteam0 := hall m2 hm2 hsameorg hmatch.2
      unfold resolveTeamID
      rw [hteam0]
      rw [horg2eq, hmatch.2]
      simp [hsearch]
    · intro a ha
      simp at ha
  constructor
  · rcases hphase1ex with ⟨a, ha, hPa⟩
    refine ⟨a, ?_, hPa⟩
    unfold BuildPlan
    rw [hplan]
    exact List.mem_append_left _ ha
  · intro a ha hty hpair
    unfold BuildPlan at ha
    rw [hplan] at ha
    rcases List.mem_append.mp ha with ha | ha
    · exact hphase1no a ha hty hpair
    · rcases hrest a ha with h2 | h2 <;> rcases hty with hty | hty <;>
        rw [h2] at hty <;> simp at hty

def c10Org : Org := { id := 1, grafanaOrgID := 1, name := "Main", defaultRole := "Viewer" }

def c10Map : Mapping :=
  { id := 1, orgID := 1, grafanaTeamName := "newteam", grafanaTeamID := 0,
    externalGroupID := "g1", externalGroupName := "G1", teamRole := "member" }

/-- Platform oracle whose team search always fails. -/
def c10Genv : GrafanaEnv :=
  { searchTeam := fun _ _ => none
    listTeamMembers := fun _ => some []
    lookupUser := fun _ => some (some { id := 7, name := "A", login := "a", email := "a@x.com" })
    listOrgUsers := fun _ => some [] }

def c10Eenv : EntraEnv :=
  { listGroupMembers := fun _ => some [{ id := "m", displayName := "A", mail := "a@x.com" }] }

def c10Cfg : SyncConfig :=
  { defaultUserRole := "Viewer", allowCreateUsers := true, allowRemoveUsers := true }

/-- Witness for C10 at a concrete one-mapping configuration whose team
search errors. -/
theorem c10_witness :
    (c10Map ∈ [c10Map] ∧
     alookup (orgIndex [c10Org]) c10Map.orgID = some c10Org ∧
     c10Map.grafanaTeamID = 0 ∧
     c10Genv.searchTeam c10Org.grafanaOrgID c10Map.grafanaTeamName = none ∧
     (∀ m2 ∈ [c10Map], m2.orgID = c10Map.orgID → m2.grafanaTeamName = c10Map.grafanaTeamName →
       m2.grafanaTeamID = 0)) ∧
    ((∃ a ∈ BuildPlan c10Cfg c10Genv c10Eenv [c10Org] [c10Map],
      a.actionType = "create_team" ∧ a.orgID = c10Org.id ∧
      a.grafanaOrgID = c10Org.grafanaOrgID ∧ a.teamName = c10Map.grafanaTeamName) ∧
    (∀ a ∈ BuildPlan c10Cfg c10Genv c10Eenv [c10Org] [c10Map],
      (a.actionType = "remove_user_from_team" ∨ a.actionType = "update_team_role") →
      ¬(a.orgID = c10Org.id ∧ a.teamName = c10Map.grafanaTeamName))) :=
  ⟨⟨by decide, by decide, by decide, rfl, by decide⟩,
   c10_search_error_plans_creation c10Cfg c10Genv c10Eenv [c10Org] [c10Map] c10Map c10Org
     (by decide) (by decide) (by decide) rfl (by decide)⟩

theorem wet_userCache (orgNameByID : List (Int × String)) (org : Org)
    (mapping : Mapping) (teamID : Int) (role roleSource : String)
    (haveM : List (String × TeamMember)) (st : BuildState) (email : String)
    (user : Option GrafanaUser) :
    (wantEntryTail orgNameByID org mapping teamID role roleSource haveM st email user).userCache
      = st.userCache := by
  unfold wantEntryTail
  dsimp only
  repeat' split
  all_goals rfl

theorem wet_roleByOrgEmail (orgNameByID : List (Int × String)) (org : Org)
    (mapping : Mapping) (teamID : Int) (role roleSource : String)
    (haveM : List (String × TeamMember)) (st : BuildState) (email : String)
    (user : Option GrafanaUser) :
    (wantEntryTail orgNameByID org mapping teamID role roleSource haveM st email user).roleByOrgEmail
      = ainsert2 st.roleByOrgEmail org.id email
          (maxRole ((alookup2 st.roleByOrgEmail org.id email).getD "") role) := by
  unfold wantEntryTail
  dsimp only
  repeat' split
  all_goals rfl

theorem wet_teamRoleByTeamEmail (orgNameByID : List (Int × String)) (org : Org)
    (mapping : Mapping) (teamID : Int) (role roleSource : String)
    (haveM : List (String × TeamMember)) (st : BuildState) (email : String)
    (user : Option GrafanaUser) :
    (wantEntryTail orgNameByID org mapping teamID role roleSource haveM st email user).teamRoleByTeamEmail
      = st.teamRoleByTeamEmail := by
  unfold wantEntryTail
  dsimp only
  repeat' split
  all_goals rfl

theorem wet_actions_inv (Q : PlanAction → Prop)
    (orgNameByID : List (Int × String)) (org : Org) (mapping : Mapping)
    (teamID : Int) (role roleSource : String) (haveM : List (String × TeamMember))
    (st : BuildState) (email : String) (user : Option GrafanaUser)
    (hQr : ∀ x r, Q x → Q { x with teamRole := r })
    (hnews : ∀ a : PlanAction, a.orgID = org.id → a.teamName = mapping.grafanaTeamName →
      a.email = email → Q a)
    (h : ∀ a ∈ st.actions, Q a) :
    ∀ a ∈ (wantEntryTail orgNameByID org mapping teamID role roleSource haveM st email user).actions,
      Q a := by
  unfold wantEntryTail
  simp only [apply_ite BuildState.actions, apply_ite BuildState.addedTeamUsers,
    apply_ite BuildState.teamRoleByTeamEmail, apply_ite BuildState.updatedTeamRoles, ite_self]
  cases hhave : alookup haveM email with
  | none =>
    simp only [hhave]
    try simp only [apply_ite BuildState.actions, ite_self]
    cases hadd : alookup st.addedTeamUsers (teamKey org.id mapping.grafanaTeamName ++ ":" ++ email) with
    | some idx =>
      simp only [hadd]
      cases hget : st.actions.get? idx with
      | some a0 =>
        simp only [hget]
        simp only [apply_ite BuildState.actions, ite_self]
        split <;> split <;>
          first
            | exact h
            | exact forall_mem_set_teamRole _ hQr _ _ _ hget _ h
      | none =>
        simp only [hget]
        simp only [apply_ite BuildState.actions, ite_self]
        exact h
    | none =>
      simp only [hadd]
      try simp only [apply_ite BuildState.actions, ite_self]
      intro a ha
      rcases List.mem_append.mp ha with ha | ha
      · exact h a ha
      · simp at ha
        subst ha
        exact hnews _ rfl rfl rfl
  | some tm =>
    simp only [hhave]
    try simp only [apply_ite BuildState.actions, ite_self]
    split
    · split
      · exact h
      · intro a ha
        rcases List.mem_append.mp ha with ha | ha
        · exact h a ha
        · simp at ha
          subst ha
          exact hnews _ rfl rfl rfl
    · exact h

def C6Inv (e : String) (st : BuildState) : Prop :=
  (∀ a ∈ st.actions, a.email = e → a.actionType = "blocked_create_user") ∧
  ((alookup st.userCache e).getD none = none) ∧
  (∀ p ∈ st.roleByOrgEmail, alookup p.2 e = none)

theorem c6_role_insert (e email : String) (m : List (Int × List (String × String)))
    (oid : Int) (v : String) (hne : email ≠ e)
    (h : ∀ p ∈ m, alookup p.2 e = none) :
    ∀ p ∈ ainsert2 m oid email v, alookup p.2 e = none := by
  intro p hp
  rcases ainsert_pairs _ _ _ p hp with hp | rfl
  · exact h p hp
  · simp only [alookup_ainsert]
    rw [if_neg (by simpa using hne)]
    cases hinner : alookup m oid with
    | none => simp [alookup_nil]
    | some inner =>
      simp only [Option.getD_some]
      rcases alookup_mem m oid inner hinner with ⟨p, hpm, _, hp2⟩
      rw [← hp2]
      exact h p hpm

theorem wet_C6 (e : String) (orgNameByID : List (Int × String)) (org : Org)
    (mapping : Mapping) (teamID : Int) (role roleSource : String)
    (haveM : List (String × TeamMember)) (st : BuildState) (email : String)
    (user : Option GrafanaUser) (hne : email ≠ e)
    (h : C6Inv e st) :
    C6Inv e (wantEntryTail orgNameByID org mapping teamID role roleSource haveM st email user) := by
  obtain ⟨h1, h2, h3⟩ := h
  refine ⟨?_, ?_, ?_⟩
  · exact wet_actions_inv _ orgNameByID org mapping teamID role roleSource haveM st email user
      (fun x r hx => hx)
      (by intro a _ _ hmail hae; rw [hmail] at hae; exact absurd hae hne) h1
  · rw [wet_userCache]; exact h2
  · rw [wet_roleByOrgEmail]
    exact c6_role_insert e email st.roleByOrgEmail org.id _ hne h3

theorem pwe_C6 (e : String) (cfg : SyncConfig) (genv : GrafanaEnv)
    (orgNameByID : List (Int × String)) (org : Org) (mapping : Mapping)
    (teamID : Int) (role roleSource : String)
    (haveM : List (String × TeamMember)) (st : BuildState)
    (email : String) (member : Member)
    (hcreate : cfg.allowCreateUsers = false)
    (hlk : genv.lookupUser e = some none)
    (h : C6Inv e st) :
    C6Inv e (processWantEntry cfg genv orgNameByID org mapping teamID role roleSource haveM st email member) := by
  obtain ⟨h1, h2, h3⟩ := h
  unfold processWantEntry
  cases hcache : alookup st.userCache email with
  | some u =>
    simp only [hcache]
    cases u with
    | none =>
      simp only [hcreate, Bool.not_false, if_true]
      refine ⟨?_, h2, h3⟩
      intro a ha
      rcases List.mem_append.mp ha with ha | ha
      · exact h1 a ha
      · simp at ha
        subst ha
        intro _
        rfl
    | some u =>
      by_cases he : email = e
      · subst he
        rw [hcache] at h2
        simp at h2
      · exact wet_C6 e orgNameByID org mapping teamID role roleSource haveM st email (some u) he ⟨h1, h2, h3⟩
  | none =>
    simp only [hcache]
    cases hfound : genv.lookupUser email with
    | none =>
      simp only [hfound]
      exact ⟨h1, h2, h3⟩
    | some found =>
      simp only [hfound]
      have h2' : (alookup (ainsert st.userCache email found) e).getD none = none := by
        rw [alookup_ainsert]
        by_cases he : (email == e) = true
        · have hee : email = e := by simpa using he
          subst hee
          rw [hfound] at hlk
          have hfn : found = none := by simpa using hlk
          subst hfn
          rw [if_pos he]
          simp
        · rw [if_neg he]
          exact h2
      cases found with
      | none =>
        simp only [hcreate, Bool.not_false, if_true]
        refine ⟨?_, h2', h3⟩
        intro a ha
        rcases List.mem_append.mp ha with ha | ha
        · exact h1 a ha
        · simp at ha
          subst ha
          intro _
          rfl
      | some u =>
        by_cases he : email = e
        · subst he
          rw [hfound] at hlk
          simp at hlk
        · exact wet_C6 e orgNameByID org mapping teamID role roleSource haveM
            { st with userCache := ainsert st.userCache email (some u) } email (some u) he ⟨h1, h2', h3⟩

theorem c6_append (e : String) (st : BuildState) (news : List PlanAction)
    (hnews : ∀ a ∈ news, a.email = e → a.actionType = "blocked_create_user")
    (h : C6Inv e st) : C6Inv e { st with actions := st.actions ++ news } := by
  obtain ⟨h1, h2, h3⟩ := h
  refine ⟨?_, h2, h3⟩
  intro a ha
  rcases List.mem_append.mp ha with ha | ha
  · exact h1 a ha
  · exact hnews a ha

theorem buildHave_keys (tms : List TeamMember) :
    ∀ p ∈ buildHave tms, ∃ tm ∈ tms, p.1 = sTrim (sToLower tm.email) := by
  unfold buildHave
  refine foldl_inv_mem
    (fun (acc : List (String × TeamMember)) =>
      ∀ p ∈ acc, ∃ tm ∈ tms, p.1 = sTrim (sToLower tm.email)) _ tms ?_ [] ?_
  · intro tm htm acc hacc p hp
    dsimp only at hp
    by_cases hne : (sTrim (sToLower tm.email) != "") = true
    · rw [if_pos hne] at hp
      rcases ainsert_pairs _ _ _ p hp with hp | rfl
      · exact hacc p hp
      · exact ⟨tm, htm, rfl⟩
    · rw [if_neg hne] at hp
      exact hacc p hp
  · intro p hp
    simp at hp

theorem c6_ite (e : String) (c : Prop) [Decidable c] (s1 s2 : BuildState)
    (hA : C6Inv e s1) (hB : C6Inv e s2) : C6Inv e (if c then s1 else s2) := by
  by_cases hc : c
  · rw [if_pos hc]
    exact hA
  · rw [if_neg hc]
    exact hB

theorem pm_C6 (e : String) (cfg : SyncConfig) (genv : GrafanaEnv) (eenv : EntraEnv)
    (orgByID : List (Int × Org)) (orgNameByID : List (Int × String))
    (st : BuildState) (mapping : Mapping)
    (hne : e ≠ "")
    (hcreate : cfg.allowCreateUsers = false)
    (hlk : genv.lookupUser e = some none)
    (hteam : ∀ tid : Int, ∀ tm ∈ (genv.listTeamMembers tid).getD [], sTrim (sToLower tm.email) ≠ e)
    (h : C6Inv e st) :
    C6Inv e (processMapping cfg genv eenv orgByID orgNameByID st mapping) := by
  unfold processMapping
  cases horg : alookup orgByID mapping.orgID with
  | none => exact h
  | some org =>
    simp only [horg]
    try dsimp only
    by_cases htid : (resolveTeamID genv org mapping == 0) = true
    · simp only [htid, if_true, bne, Bool.not_true, if_false]
      have h1 : C6Inv e { st with actions := st.actions ++
          [{ actionType := "create_team"
             orgID := org.id
             grafanaOrgID := org.grafanaOrgID
             teamName := mapping.grafanaTeamName
             teamRole := normalizeTeamRole mapping.teamRole
             externalGroupID := mapping.externalGroupID
             note := mappingNote ((alookup orgNameByID org.id).getD "") mapping }] } := by
        refine c6_append e st _ ?_ h
        intro a ha
        simp at ha
        subst ha
        intro hae
        exact absurd hae.symm hne
      cases hmem : eenv.listGroupMembers mapping.externalGroupID with
      | none => exact h1
      | some members =>
        simp only [hmem]
        try dsimp only
        by_cases hrm : cfg.allowRemoveUsers = true
        · simp only [hrm, if_true]
          refine foldl_inv_mem (C6Inv e) _ _ ?_ _ ?_
          · intro p hp
            simp at hp
          · refine foldl_inv (C6Inv e) _ ?_ _ _ ?_
            · intro s p hs
              exact pwe_C6 e cfg genv orgNameByID org mapping _ _ _ _ s p.1 p.2 hcreate hlk hs
            · exact ⟨h1.1, h1.2.1, h1.2.2⟩
        · simp only [hrm, if_false]
          refine foldl_inv (C6Inv e) _ ?_ _ _ ?_
          · intro s p hs
            exact pwe_C6 e cfg genv orgNameByID org mapping _ _ _ _ s p.1 p.2 hcreate hlk hs
          · exact ⟨h1.1, h1.2.1, h1.2.2⟩
    · have htid2 : (resolveTeamID genv org mapping == 0) = false := by
        revert htid
        cases (resolveTeamID genv org mapping == 0) <;> simp
      simp only [htid2, if_false, bne, Bool.not_false, if_true]
      cases hmem : eenv.listGroupMembers mapping.externalGroupID with
      | none => exact h
      | some members =>
        simp only [hmem]
        try dsimp only
        cases hlist : genv.listTeamMembers (resolveTeamID genv org mapping) with
        | none => exact h
        | some tms =>
          simp only [hlist]
          try dsimp only
          have hkeys : ∀ p ∈ buildHave tms, p.1 ≠ e := by
            intro p hp
            rcases buildHave_keys tms p hp with ⟨tm, htm, hp1⟩
            have hx := hteam (resolveTeamID genv org mapping) tm (by rw [hlist]; simpa using htm)
            rw [hp1]
            exact hx
          by_cases hrm : cfg.allowRemoveUsers = true
          · simp only [hrm, if_true]
            refine foldl_inv_mem (C6Inv e) _ _ ?_ _ ?_
            · intro p hp s hs
              try dsimp only
              refine c6_ite e _ _ _ hs (c6_append e s _ ?_ hs)
              intro a ha
              simp at ha
              subst ha
              intro hae
              exact absurd hae (hkeys p hp)
            · refine foldl_inv (C6Inv e) _ ?_ _ _ ?_
              · intro s p hs
                exact pwe_C6 e cfg genv orgNameByID org mapping _ _ _ _ s p.1 p.2 hcreate hlk hs
              · exact ⟨h.1, h.2.1, h.2.2⟩
          · simp only [hrm, if_false]
            refine foldl_inv (C6Inv e) _ ?_ _ _ ?_
            · intro s p hs
              exact pwe_C6 e cfg genv orgNameByID org mapping _ _ _ _ s p.1 p.2 hcreate hlk hs
            · exact ⟨h.1, h.2.1, h.2.2⟩

theorem orgRolePass_C6 (e : String) (orgByID : List (Int × Org))
    (orgUsers : List (Int × List (String × OrgUser))) (st : BuildState)
    (h : C6Inv e st) :
    ∀ a ∈ orgRolePass orgByID orgUsers st, a.email = e → a.actionType = "blocked_create_user" := by
  obtain ⟨h1, h2, h3⟩ := h
  unfold orgRolePass
  refine foldl_inv_mem
    (fun (actions : List PlanAction) => ∀ a ∈ actions, a.email = e → a.actionType = "blocked_create_user")
    _ _ ?_ _ h1
  intro p hp actions hacts
  try dsimp only
  refine foldl_inv_mem
    (fun (acts : List PlanAction) => ∀ a ∈ acts, a.email = e → a.actionType = "blocked_create_user")
    _ _ ?_ _ hacts
  intro q hq acts hacts2
  try dsimp only
  have hqe : q.1 ≠ e := by
    have hnone := alookup_none _ _ (h3 p hp) q hq
    simpa using hnone
  split
  · intro a ha
    rcases List.mem_append.mp ha with ha | ha
    · exact hacts2 a ha
    · simp at ha
      subst ha
      intro hae
      exact absurd hae hqe
  · split
    · intro a ha
      rcases List.mem_append.mp ha with ha | ha
      · exact hacts2 a ha
      · simp at ha
        subst ha
        intro hae
        exact absurd hae hqe
    · exact hacts2

def c6Org : Org := { id := 1, grafanaOrgID := 10, name := "Main" }

def c6Map : Mapping :=
  { id := 1, orgID := 1, grafanaTeamName := "devs", grafanaTeamID := 7,
    externalGroupID := "g1", teamRole := "member" }

def c6Genv : GrafanaEnv :=
  { searchTeam := fun _ _ => some (some 7)
    listTeamMembers := fun _ => some []
    lookupUser := fun _ => some none
    listOrgUsers := fun _ => some [] }

def c6Eenv : EntraEnv :=
  { listGroupMembers := fun _ =>
      some [{ id := "m1", displayName := "Ghost", mail := "ghost@example.com" }] }

def c6Cfg : SyncConfig :=
  { defaultUserRole := "Viewer", allowCreateUsers := false, allowRemoveUsers := true }

/-- **C6** (blocked-creation short-circuit): when user auto-creation is
disabled and an email has no platform account (`LookupUser` finds nothing
and no team listing contains it), every action of the built plan that
references that email is a `blocked_create_user` entry — in particular no
`create_user`, `add_user_to_org`, `update_user_role`, `add_user_to_team`,
`update_team_role` or `remove_user_from_team` action references it; the
policy denial surfaces as a plan entry, not an error. -/
theorem c6_blocked_creation_short_circuit (cfg : SyncConfig) (genv : GrafanaEnv)
    (eenv : EntraEnv) (orgs : List Org) (mappings : List Mapping) (e : String)
    (hne : e ≠ "")
    (hcreate : cfg.allowCreateUsers = false)
    (hlk : genv.lookupUser e = some none)
    (hteam : ∀ tid : Int, ∀ tm ∈ (genv.listTeamMembers tid).getD [],
      sTrim (sToLower tm.email) ≠ e) :
    ∀ a ∈ BuildPlan cfg genv eenv orgs mappings,
      a.email = e → a.actionType = "blocked_create_user" := by
  unfold BuildPlan
  refine orgRolePass_C6 e _ _ _ ?_
  unfold buildPhase1
  refine foldl_inv (C6Inv e) _ ?_ _ _ ?_
  · intro s m hs
    exact pm_C6 e cfg genv eenv _ _ s m hne hcreate hlk hteam hs
  · refine ⟨?_, ?_, ?_⟩
    · intro a ha
      simp at ha
    · rfl
    · intro p hp
      simp at hp

theorem c6_blocked_creation_short_circuit_witness :
    ("ghost@example.com" : String) ≠ "" ∧
    c6Cfg.allowCreateUsers = false ∧
    c6Genv.lookupUser "ghost@example.com" = some none ∧
    (∀ tid : Int, ∀ tm ∈ (c6Genv.listTeamMembers tid).getD [],
      sTrim (sToLower tm.email) ≠ "ghost@example.com") ∧
    (∃ a ∈ BuildPlan c6Cfg c6Genv c6Eenv [c6Org] [c6Map],
      a.actionType = "blocked_create_user" ∧ a.email = "ghost@example.com") ∧
    (∀ a ∈ BuildPlan c6Cfg c6Genv c6Eenv [c6Org] [c6Map],
      a.email = "ghost@example.com" → a.actionType = "blocked_create_user") :=
  ⟨by decide, rfl, rfl,
   by intro tid tm htm; simp [c6Genv] at htm,
   by decide,
   c6_blocked_creation_short_circuit c6Cfg c6Genv c6Eenv [c6Org] [c6Map]
     "ghost@example.com" (by decide) rfl rfl
     (by intro tid tm htm; simp [c6Genv] at htm)⟩

def countUpd (k : String) (l : List PlanAction) : Nat :=
  l.countP (fun a => a.actionType == "update_team_role" &&
    (teamKey a.orgID a.teamName ++ ":" ++ a.email == k))

def C5Inv (k : String) (st : BuildState) : Prop :=
  (st.updatedTeamRoles.contains k = true → countUpd k st.actions ≤ 1) ∧
  (st.updatedTeamRoles.contains k = false → countUpd k st.actions = 0) ∧
  (∀ a ∈ st.actions, a.actionType = "update_team_role" → a.teamRole = "admin") ∧
  (∀ p ∈ st.addedTeamUsers, p.2 < st.actions.length ∧
    ∀ x, st.actions.get? p.2 = some x → x.actionType = "add_user_to_team")

theorem mem_set_cases {α : Type} :
    ∀ (l : List α) (i : Nat) (y : α) (b : α), b ∈ l.set i y → b ∈ l ∨ b = y := by
  intro l
  induction l with
  | nil => intro i y b hb; simp [List.set] at hb
  | cons hd tl ih =>
    intro i y b hb
    cases i with
    | zero =>
      rcases List.mem_cons.mp (by simpa [List.set] using hb) with rfl | hb2
      · right; rfl
      · left; exact List.mem_cons_of_mem _ hb2
    | succ i =>
      rcases List.mem_cons.mp (by simpa [List.set] using hb) with rfl | hb2
      · left; exact List.mem_cons_self _ _
      · rcases ih i y b hb2 with h | h
        · left; exact List.mem_cons_of_mem _ h
        · right; exact h

theorem get?_set_cases {α : Type} :
    ∀ (l : List α) (i : Nat) (y : α) (j : Nat) (x : α),
      (l.set i y).get? j = some x → x = y ∨ l.get? j = some x := by
  intro l
  induction l with
  | nil => intro i y j x hx; simp [List.set] at hx
  | cons hd tl ih =>
    intro i y j x hx
    cases i with
    | zero =>
      cases j with
      | zero =>
        simp [List.set, List.get?] at hx
        left; exact hx.symm
      | succ j =>
        right
        simpa [List.set, List.get?] using hx
    | succ i =>
      cases j with
      | zero =>
        right
        simpa [List.set, List.get?] using hx
      | succ j =>
        rcases ih i y j x (by simpa [List.set, List.get?] using hx) with h | h
        · left; exact h
        · right; simpa [List.get?] using h

theorem get?_append_left {α : Type} :
    ∀ (l l2 : List α) (j : Nat), j < l.length → (l ++ l2).get? j = l.get? j := by
  intro l
  induction l with
  | nil => intro l2 j hj; simp at hj
  | cons hd tl ih =>
    intro l2 j hj
    cases j with
    | zero => simp [List.get?]
    | succ j =>
      simp only [List.cons_append, List.get?]
      exact ih l2 j (by simpa using hj)

theorem get?_append_cases {α : Type} :
    ∀ (l : List α) (y : α) (j : Nat) (x : α),
      (l ++ [y]).get? j = some x → l.get? j = some x ∨ x = y := by
  intro l
  induction l with
  | nil =>
    intro y j x hx
    cases j with
    | zero => simp [List.get?] at hx; right; exact hx.symm
    | succ j => simp [List.get?] at hx
  | cons hd tl ih =>
    intro y j x hx
    cases j with
    | zero => left; simpa [List.get?] using hx
    | succ j =>
      rcases ih y j x (by simpa [List.get?] using hx) with h | h
      · left; simpa [List.get?] using h
      · right; exact h

theorem get?_concat_len {α : Type} :
    ∀ (l : List α) (y : α), (l ++ [y]).get? l.length = some y := by
  intro l
  induction l with
  | nil => intro y; rfl
  | cons hd tl ih => intro y; simp [List.get?]

theorem c5_ite (k : String) (c : Prop) [Decidable c] (s1 s2 : BuildState)
    (hA : C5Inv k s1) (hB : C5Inv k s2) : C5Inv k (if c then s1 else s2) := by
  by_cases hc : c
  · rw [if_pos hc]
    exact hA
  · rw [if_neg hc]
    exact hB

theorem countUpd_append_one (k : String) (l : List PlanAction) (y : PlanAction)
    (hy : (y.actionType == "update_team_role" &&
      (teamKey y.orgID y.teamName ++ ":" ++ y.email == k)) = false) :
    countUpd k (l ++ [y]) = countUpd k l := by
  unfold countUpd
  rw [List.countP_append]
  simp [List.countP_cons, hy]

/-- Appending one action that is not an `update_team_role`, leaving the
dedup structures unchanged, preserves the C5 invariant. -/
theorem c5_append_other (k : String) (st : BuildState) (y : PlanAction)
    (hty : (y.actionType == "update_team_role") = false)
    (h : C5Inv k st) : C5Inv k { st with actions := st.actions ++ [y] } := by
  obtain ⟨h1, h2, h3, h4⟩ := h
  have hcount : countUpd k (st.actions ++ [y]) = countUpd k st.actions :=
    countUpd_append_one k st.actions y (by simp [hty])
  refine ⟨?_, ?_, ?_, ?_⟩
  · intro hc
    rw [hcount]
    exact h1 hc
  · intro hc
    rw [hcount]
    exact h2 hc
  · intro a ha
    rcases List.mem_append.mp ha with ha | ha
    · exact h3 a ha
    · simp at ha
      subst ha
      intro hta
      rw [hta] at hty
      simp at hty
  · intro p hp
    rcases h4 p hp with ⟨hlt, hget⟩
    refine ⟨by simp; omega, ?_⟩
    intro x hx
    rw [get?_append_left st.actions [y] p.2 hlt] at hx
    exact hget x hx

/-- The fresh `add_user_to_team` append together with its index
registration in `addedTeamUsers` preserves the C5 invariant. -/
theorem c5_append_add (k : String) (st : BuildState) (y : PlanAction) (key2 : String)
    (hty : y.actionType = "add_user_to_team")
    (h : C5Inv k st) :
    C5Inv k { st with actions := st.actions ++ [y],
                      addedTeamUsers := ainsert st.addedTeamUsers key2 st.actions.length } := by
  obtain ⟨h1, h2, h3, h4⟩ := h
  have hcount : countUpd k (st.actions ++ [y]) = countUpd k st.actions :=
    countUpd_append_one k st.actions y (by simp [hty])
  refine ⟨?_, ?_, ?_, ?_⟩
  · intro hc
    rw [hcount]
    exact h1 hc
  · intro hc
    rw [hcount]
    exact h2 hc
  · intro a ha
    rcases List.mem_append.mp ha with ha | ha
    · exact h3 a ha
    · simp at ha
      subst ha
      intro hta
      rw [hty] at hta
      simp at hta
  · intro p hp
    rcases ainsert_pairs st.addedTeamUsers key2 st.actions.length p hp with hp | rfl
    · rcases h4 p hp with ⟨hlt, hget⟩
      refine ⟨by simp; omega, ?_⟩
      intro x hx
      rw [get?_append_left st.actions [y] p.2 hlt] at hx
      exact hget x hx
    · refine ⟨by simp, ?_⟩
      intro x hx
      rw [get?_concat_len st.actions y] at hx
      cases hx
      exact hty

/-- The in-place `teamRole` upgrade of an already-planned
`add_user_to_team` action preserves the C5 invariant. -/
theorem c5_set (k : String) (st : BuildState) (idx : Nat) (a : PlanAction) (r : String)
    (hget : st.actions.get? idx = some a)
    (hty : a.actionType = "add_user_to_team")
    (h : C5Inv k st) :
    C5Inv k { st with actions := st.actions.set idx { a with teamRole := r } } := by
  obtain ⟨h1, h2, h3, h4⟩ := h
  have hcount : countUpd k (st.actions.set idx { a with teamRole := r }) = countUpd k st.actions := by
    unfold countUpd
    exact countP_set_teamRole
      (fun a => a.actionType == "update_team_role" &&
        (teamKey a.orgID a.teamName ++ ":" ++ a.email == k))
      (fun x r2 => rfl) st.actions idx a hget r
  refine ⟨?_, ?_, ?_, ?_⟩
  · intro hc
    rw [hcount]
    exact h1 hc
  · intro hc
    rw [hcount]
    exact h2 hc
  · intro b hb
    rcases mem_set_cases st.actions idx { a with teamRole := r } b hb with hb | rfl
    · exact h3 b hb
    · intro htb
      rw [show ({ a with teamRole := r } : PlanAction).actionType = a.actionType from rfl, hty] at htb
      simp at htb
  · intro p hp
    rcases h4 p hp with ⟨hlt, hget2⟩
    refine ⟨by simpa using hlt, ?_⟩
    intro x hx
    rcases get?_set_cases st.actions idx { a with teamRole := r } p.2 x hx with rfl | hx2
    · exact hty
    · exact hget2 x hx2

/-- The guarded `update_team_role` append (only for an aggregated admin
role, deduplicated through `updatedTeamRoles`) preserves the C5 invariant. -/
theorem c5_append_upd (k : String) (st : BuildState) (u : PlanAction) (uk : String)
    (hty : u.actionType = "update_team_role")
    (hadm : u.teamRole = "admin")
    (hkey : teamKey u.orgID u.teamName ++ ":" ++ u.email = uk)
    (hctn : st.updatedTeamRoles.contains uk = false)
    (h : C5Inv k st) :
    C5Inv k { st with actions := st.actions ++ [u],
                      updatedTeamRoles := st.updatedTeamRoles ++ [uk] } := by
  obtain ⟨h1, h2, h3, h4⟩ := h
  by_cases hk : uk = k
  · subst hk
    have hc0 : countUpd uk st.actions = 0 := h2 hctn
    have hcount : countUpd uk (st.actions ++ [u]) = 1 := by
      unfold countUpd at hc0 ⊢
      rw [List.countP_append, hc0]
      simp [List.countP_cons, hty, hkey]
    refine ⟨?_, ?_, ?_, ?_⟩
    · intro _
      rw [hcount]
    · intro hc
      simp at hc
    · intro b hb
      rcases List.mem_append.mp hb with hb | hb
      · exact h3 b hb
      · simp at hb
        subst hb
        intro _
        exact hadm
    · intro p hp
      rcases h4 p hp with ⟨hlt, hget⟩
      refine ⟨by simp; omega, ?_⟩
      intro x hx
      rw [get?_append_left st.actions [u] p.2 hlt] at hx
      exact hget x hx
  · have hcont2 : (st.updatedTeamRoles ++ [uk]).contains k = st.updatedTeamRoles.contains k := by
      simp [List.contains, List.any_append]
      intro hc
      exact absurd hc.symm hk
    have hcount : countUpd k (st.actions ++ [u]) = countUpd k st.actions := by
      refine countUpd_append_one k st.actions u ?_
      rw [hkey]
      simp
      intro _
      exact hk
    refine ⟨?_, ?_, ?_, ?_⟩
    · intro hc
      rw [hcont2] at hc
      rw [hcount]
      exact h1 hc
    · intro hc
      rw [hcont2] at hc
      rw [hcount]
      exact h2 hc
    · intro b hb
      rcases List.mem_append.mp hb with hb | hb
      · exact h3 b hb
      · simp at hb
        subst hb
        intro _
        exact hadm
    · intro p hp
      rcases h4 p hp with ⟨hlt, hget⟩
      refine ⟨by simp; omega, ?_⟩
      intro x hx
      rw [get?_append_left st.actions [u] p.2 hlt] at hx
      exact hget x hx

theorem c5_append_other2 (k : String) (st : BuildState) (y : PlanAction)
    (uc : List (String × Option GrafanaUser)) (rb rs : List (Int × List (String × String)))
    (trm : List (String × List (String × String)))
    (hty : (y.actionType == "update_team_role") = false)
    (h : C5Inv k st) :
    C5Inv k { actions := st.actions ++ [y], userCache := uc, roleByOrgEmail := rb,
              roleSourceByOrgEmail := rs, addedTeamUsers := st.addedTeamUsers,
              teamRoleByTeamEmail := trm, updatedTeamRoles := st.updatedTeamRoles } := by
  have h2 := c5_append_other k st y hty h
  exact ⟨h2.1, h2.2.1, h2.2.2.1, h2.2.2.2⟩

theorem c5_append_add2 (k : String) (st : BuildState) (y : PlanAction) (key2 : String)
    (uc : List (String × Option GrafanaUser)) (rb rs : List (Int × List (String × String)))
    (trm : List (String × List (String × String)))
    (hty : y.actionType = "add_user_to_team")
    (h : C5Inv k st) :
    C5Inv k { actions := st.actions ++ [y], userCache := uc, roleByOrgEmail := rb,
              roleSourceByOrgEmail := rs,
              addedTeamUsers := ainsert st.addedTeamUsers key2 st.actions.length,
              teamRoleByTeamEmail := trm, updatedTeamRoles := st.updatedTeamRoles } := by
  have h2 := c5_append_add k st y key2 hty h
  exact ⟨h2.1, h2.2.1, h2.2.2.1, h2.2.2.2⟩

theorem c5_set2 (k : String) (st : BuildState) (idx : Nat) (a : PlanAction) (r : String)
    (uc : List (String × Option GrafanaUser)) (rb rs : List (Int × List (String × String)))
    (trm : List (String × List (String × String)))
    (hget : st.actions.get? idx = some a)
    (hty : a.actionType = "add_user_to_team")
    (h : C5Inv k st) :
    C5Inv k { actions := st.actions.set idx { a with teamRole := r }, userCache := uc,
              roleByOrgEmail := rb, roleSourceByOrgEmail := rs,
              addedTeamUsers := st.addedTeamUsers,
              teamRoleByTeamEmail := trm, updatedTeamRoles := st.updatedTeamRoles } := by
  have h2 := c5_set k st idx a r hget hty h
  exact ⟨h2.1, h2.2.1, h2.2.2.1, h2.2.2.2⟩

theorem c5_append_upd2 (k : String) (st : BuildState) (u : PlanAction) (uk : String)
    (uc : List (String × Option GrafanaUser)) (rb rs : List (Int × List (String × String)))
    (trm : List (String × List (String × String)))
    (hty : u.actionType = "update_team_role")
    (hadm : u.teamRole = "admin")
    (hkey : teamKey u.orgID u.teamName ++ ":" ++ u.email = uk)
    (hctn : st.updatedTeamRoles.contains uk = false)
    (h : C5Inv k st) :
    C5Inv k { actions := st.actions ++ [u], userCache := uc, roleByOrgEmail := rb,
              roleSourceByOrgEmail := rs, addedTeamUsers := st.addedTeamUsers,
              teamRoleByTeamEmail := trm,
              updatedTeamRoles := st.updatedTeamRoles ++ [uk] } := by
  have h2 := c5_append_upd k st u uk hty hadm hkey hctn h
  exact ⟨h2.1, h2.2.1, h2.2.2.1, h2.2.2.2⟩

theorem wet_C5 (k : String) (orgNameByID : List (Int × String)) (org : Org)
    (mapping : Mapping) (teamID : Int) (role roleSource : String)
    (haveM : List (String × TeamMember)) (st : BuildState) (email : String)
    (user : Option GrafanaUser)
    (h : C5Inv k st) :
    C5Inv k (wantEntryTail orgNameByID org mapping teamID role roleSource haveM st email user) := by
  unfold wantEntryTail
  try dsimp only
  simp only [apply_ite BuildState.actions, apply_ite BuildState.userCache,
    apply_ite BuildState.roleByOrgEmail, apply_ite BuildState.addedTeamUsers,
    apply_ite BuildState.teamRoleByTeamEmail, apply_ite BuildState.updatedTeamRoles, ite_self]
  cases hhave : alookup haveM email with
  | none =>
    simp only [hhave]
    cases hadd : alookup st.addedTeamUsers (teamKey org.id mapping.grafanaTeamName ++ ":" ++ email) with
    | some idx =>
      simp only [hadd]
      cases hget : st.actions.get? idx with
      | some a =>
        simp only [hget]
        have hty : a.actionType = "add_user_to_team" := by
          rcases alookup_mem _ _ _ hadd with ⟨p, hpm, hk, hv⟩
          exact (h.2.2.2 p hpm).2 a (by rw [hv]; exact hget)
        refine c5_ite k _ _ _ ?_ ?_
        · exact c5_set2 k st idx a _ _ _ _ _ hget hty h
        · refine c5_ite k _ _ _ ?_ ?_ <;> exact ⟨h.1, h.2.1, h.2.2.1, h.2.2.2⟩
      | none =>
        simp only [hget]
        refine c5_ite k _ _ _ ?_ ?_ <;> exact ⟨h.1, h.2.1, h.2.2.1, h.2.2.2⟩
    | none =>
      simp only [hadd]
      refine c5_append_add2 k st _ _ _ _ _ _ ?_ h
      rfl
  | some tm =>
    simp only [hhave]
    by_cases hadm : (((alookup2 st.teamRoleByTeamEmail (teamKey org.id mapping.grafanaTeamName) email).getD "") == "admin") = true
    · rw [if_pos hadm]
      by_cases hctn : st.updatedTeamRoles.contains (teamKey org.id mapping.grafanaTeamName ++ ":" ++ email) = true
      · rw [if_pos hctn]
        refine c5_ite k _ _ _ ?_ ?_ <;> exact ⟨h.1, h.2.1, h.2.2.1, h.2.2.2⟩
      · rw [if_neg hctn]
        have hctn2 : st.updatedTeamRoles.contains (teamKey org.id mapping.grafanaTeamName ++ ":" ++ email) = false := by
          revert hctn
          cases st.updatedTeamRoles.contains (teamKey org.id mapping.grafanaTeamName ++ ":" ++ email) <;> simp
        refine c5_append_upd2 k st _ _ _ _ _ _ ?_ ?_ ?_ hctn2 h
        · rfl
        · simpa using hadm
        · rfl
    · rw [if_neg hadm]
      refine c5_ite k _ _ _ ?_ ?_ <;> exact ⟨h.1, h.2.1, h.2.2.1, h.2.2.2⟩

theorem pwe_C5 (k : String) (cfg : SyncConfig) (genv : GrafanaEnv)
    (orgNameByID : List (Int × String)) (org : Org) (mapping : Mapping)
    (teamID : Int) (role roleSource : String)
    (haveM : List (String × TeamMember)) (st : BuildState)
    (email : String) (member : Member)
    (h : C5Inv k st) :
    C5Inv k (processWantEntry cfg genv orgNameByID org mapping teamID role roleSource haveM st email member) := by
  unfold processWantEntry
  cases hcache : alookup st.userCache email with
  | some u =>
    simp only [hcache]
    cases u with
    | none =>
      cases hc : cfg.allowCreateUsers with
      | false =>
        simp only [hc, Bool.not_false, if_true]
        refine c5_append_other k st _ ?_ h
        rfl
      | true =>
        simp only [hc, Bool.not_true, Bool.false_eq_true, if_false]
        exact wet_C5 k orgNameByID org mapping teamID role roleSource haveM _ email none
          (c5_append_other k st _ (by rfl) h)
    | some u =>
      exact wet_C5 k orgNameByID org mapping teamID role roleSource haveM st email (some u) h
  | none =>
    simp only [hcache]
    cases hfound : genv.lookupUser email with
    | none =>
      simp only [hfound]
      exact h
    | some found =>
      simp only [hfound]
      have h2 : C5Inv k { st with userCache := ainsert st.userCache email found } :=
        ⟨h.1, h.2.1, h.2.2.1, h.2.2.2⟩
      cases found with
      | none =>
        cases hc : cfg.allowCreateUsers with
        | false =>
          simp only [hc, Bool.not_false, if_true]
          refine c5_append_other k _ _ ?_ h2
          rfl
        | true =>
          simp only [hc, Bool.not_true, Bool.false_eq_true, if_false]
          exact wet_C5 k orgNameByID org mapping teamID role roleSource haveM _ email none
            (c5_append_other k _ _ (by rfl) h2)
      | some u =>
        exact wet_C5 k orgNameByID org mapping teamID role roleSource haveM _ email (some u) h2

theorem pm_C5 (k : String) (cfg : SyncConfig) (genv : GrafanaEnv) (eenv : EntraEnv)
    (orgByID : List (Int × Org)) (orgNameByID : List (Int × String))
    (st : BuildState) (mapping : Mapping)
    (h : C5Inv k st) :
    C5Inv k (processMapping cfg genv eenv orgByID orgNameByID st mapping) := by
  unfold processMapping
  cases horg : alookup orgByID mapping.orgID with
  | none => exact h
  | some org =>
    simp only [horg]
    try dsimp only
    by_cases htid : (resolveTeamID genv org mapping == 0) = true
    · simp only [htid, if_true, bne, Bool.not_true, if_false]
      have h1 : C5Inv k { st with actions := st.actions ++
          [{ actionType := "create_team"
             orgID := org.id
             grafanaOrgID := org.grafanaOrgID
             teamName := mapping.grafanaTeamName
             teamRole := normalizeTeamRole mapping.teamRole
             externalGroupID := mapping.externalGroupID
             note := mappingNote ((alookup orgNameByID org.id).getD "") mapping }] } :=
        c5_append_other k st _ (by rfl) h
      cases hmem : eenv.listGroupMembers mapping.externalGroupID with
      | none => exact h1
      | some members =>
        simp only [hmem]
        try dsimp only
        by_cases hrm : cfg.allowRemoveUsers = true
        · simp only [hrm, if_true]
          refine foldl_inv_mem (C5Inv k) _ _ ?_ _ ?_
          · intro p hp
            simp at hp
          · refine foldl_inv (C5Inv k) _ ?_ _ _ ?_
            · intro s p hs
              exact pwe_C5 k cfg genv orgNameByID org mapping _ _ _ _ s p.1 p.2 hs
            · exact ⟨h1.1, h1.2.1, h1.2.2.1, h1.2.2.2⟩
        · simp only [hrm, if_false]
          refine foldl_inv (C5Inv k) _ ?_ _ _ ?_
          · intro s p hs
            exact pwe_C5 k cfg genv orgNameByID org mapping _ _ _ _ s p.1 p.2 hs
          · exact ⟨h1.1, h1.2.1, h1.2.2.1, h1.2.2.2⟩
    · have htid2 : (resolveTeamID genv org mapping == 0) = false := by
        revert htid
        cases (resolveTeamID genv org mapping == 0) <;> simp
      simp only [htid2, if_false, bne, Bool.not_false, if_true]
      cases hmem : eenv.listGroupMembers mapping.externalGroupID with
      | none => exact h
      | some members =>
        simp only [hmem]
        try dsimp only
        cases hlist : genv.listTeamMembers (resolveTeamID genv org mapping) with
        | none => exact h
        | some tms =>
          simp only [hlist]
          try dsimp only
          by_cases hrm : cfg.allowRemoveUsers = true
          · simp only [hrm, if_true]
            refine foldl_inv_mem (C5Inv k) _ _ ?_ _ ?_
            · intro p hp s hs
              try dsimp only
              refine c5_ite k _ _ _ hs (c5_append_other k s _ ?_ hs)
              rfl
            · refine foldl_inv (C5Inv k) _ ?_ _ _ ?_
              · intro s p hs
                exact pwe_C5 k cfg genv orgNameByID org mapping _ _ _ _ s p.1 p.2 hs
              · exact ⟨h.1, h.2.1, h.2.2.1, h.2.2.2⟩
          · simp only [hrm, if_false]
            refine foldl_inv (C5Inv k) _ ?_ _ _ ?_
            · intro s p hs
              exact pwe_C5 k cfg genv orgNameByID org mapping _ _ _ _ s p.1 p.2 hs
            · exact ⟨h.1, h.2.1, h.2.2.1, h.2.2.2⟩

/-- **C5** (amended): `BuildPlan` emits `update_team_role` at most once per
`(team, email)` dedup key in a plan, and every emitted `update_team_role`
action requests the `admin` team role (the emission is guarded only by the
aggregated team role being `admin` and by the `updatedTeamRoles` dedup set;
the existing membership's current role is not consulted). -/
theorem c5_team_role_update_amended (cfg : SyncConfig) (genv : GrafanaEnv)
    (eenv : EntraEnv) (orgs : List Org) (mappings : List Mapping) (k : String) :
    countUpd k (BuildPlan cfg genv eenv orgs mappings) ≤ 1 ∧
    ∀ a ∈ BuildPlan cfg genv eenv orgs mappings,
      a.actionType = "update_team_role" → a.teamRole = "admin" := by
  have hinv : C5Inv k (buildPhase1 cfg genv eenv orgs mappings) := by
    unfold buildPhase1
    refine foldl_inv (C5Inv k) _ ?_ _ _ ?_
    · intro s m hs
      exact pm_C5 k cfg genv eenv _ _ s m hs
    · refine ⟨?_, ?_, ?_, ?_⟩
      · intro hc
        simp [List.contains] at hc
      · intro _
        rfl
      · intro a ha
        simp at ha
      · intro p hp
        simp at hp
  rcases orgRolePass_append (orgIndex orgs) (collectOrgUsers genv orgs)
    (buildPhase1 cfg genv eenv orgs mappings) with ⟨rest, heq, hrest⟩
  unfold BuildPlan
  rw [heq]
  have hrc : countUpd k rest = 0 := by
    unfold countUpd
    rw [List.countP_eq_zero]
    intro a ha
    rcases hrest a ha with h | h <;> simp [h]
  constructor
  · have hph : countUpd k (buildPhase1 cfg genv eenv orgs mappings).actions ≤ 1 := by
      cases hc : (buildPhase1 cfg genv eenv orgs mappings).updatedTeamRoles.contains k with
      | true => exact hinv.1 hc
      | false =>
        rw [hinv.2.1 hc]
        omega
    unfold countUpd at hph hrc ⊢
    rw [List.countP_append, hrc]
    omega
  · intro a ha
    rcases List.mem_append.mp ha with ha | ha
    · exact hinv.2.2.1 a ha
    · intro hty
      rcases hrest a ha with h | h <;> rw [hty] at h <;> simp at h

def c5Org : Org := { id := 1, grafanaOrgID := 10, name := "Main" }

def c5Map : Mapping :=
  { id := 1, orgID := 1, grafanaTeamName := "devs", grafanaTeamID := 7,
    externalGroupID := "g1", teamRole := "admin" }

def c5Genv : GrafanaEnv :=
  { searchTeam := fun _ _ => some (some 7)
    listTeamMembers := fun _ => some [{ id := 2, email := "bob@example.com", role := "Admin" }]
    lookupUser := fun _ => some (some { id := 2, email := "bob@example.com" })
    listOrgUsers := fun _ => some [{ id := 2, email := "bob@example.com", role := "Viewer" }] }

def c5Eenv : EntraEnv :=
  { listGroupMembers := fun _ =>
      some [{ id := "m2", displayName := "Bob", mail := "bob@example.com" }] }

def c5Cfg : SyncConfig :=
  { defaultUserRole := "Viewer", allowCreateUsers := false, allowRemoveUsers := false }

/-- **C5 counterexample**: the existing team membership already has the
`Admin` role (every member of the only team's listing does), yet
`BuildPlan` still emits an `update_team_role` action for that member — the
emission does not consult the existing membership's role, refuting the
"only when the existing team membership's role is not admin" part of the
claim. -/
theorem c5_counterexample :
    (∀ tm ∈ (c5Genv.listTeamMembers 7).getD [], eqFold tm.role "admin" = true) ∧
    (∃ a ∈ BuildPlan c5Cfg c5Genv c5Eenv [c5Org] [c5Map],
      a.actionType = "update_team_role" ∧ a.email = "bob@example.com") := by
  decide

/-! ## C1: idempotence of planning

The claim's "directory and platform state unchanged since a previously
built plan was fully applied" precondition is not a single value of the
embedding, so it is rendered — following the spec's words — as an
executable stability predicate over the two oracles: the mapped teams
resolve, every wanted directory member has a platform account and is
already a member of the mapped team, removals are consistent, and every
accumulated `(org, email) → role` requirement matches the listed org
membership under `EqualFold`. -/

/-- Per-mapping stability (spec-modelled precondition of the idempotence
claim): the org's team resolves, and — when the directory group lists
members — the team listing succeeds, every wanted member has a platform
account and already appears in the team's member map, and (when removals
are enabled) every listed member is still wanted. -/
def MappingStable (cfg : SyncConfig) (genv : GrafanaEnv) (eenv : EntraEnv)
    (orgByID : List (Int × Org)) (m : Mapping) : Bool :=
  match alookup orgByID m.orgID with
  | none => true
  | some org =>
    (resolveTeamID genv org m != 0) &&
    (match eenv.listGroupMembers m.externalGroupID with
     | none => true
     | some members =>
       match genv.listTeamMembers (resolveTeamID genv org m) with
       | none => false
       | some tms =>
         (members.all (fun mem =>
           (sTrim (sToLower (pickEmail mem)) == "") ||
           (((genv.lookupUser (sTrim (sToLower (pickEmail mem)))).getD none).isSome &&
            (alookup (buildHave tms) (sTrim (sToLower (pickEmail mem)))).isSome))) &&
         (!cfg.allowRemoveUsers ||
          (buildHave tms).all (fun p =>
            members.any (fun mem => sTrim (sToLower (pickEmail mem)) == p.1))))

/-- Stability of the whole mapping set. -/
def StableFor (cfg : SyncConfig) (genv : GrafanaEnv) (eenv : EntraEnv)
    (orgs : List Org) (mappings : List Mapping) : Bool :=
  mappings.all (MappingStable cfg genv eenv (orgIndex orgs))

/-- Org-role stability (spec-modelled precondition of the idempotence
claim): every accumulated `(org, email) → role` requirement of phase 1 is
matched, under `EqualFold`, by the listed actual org membership. -/
def OrgRolesStable (oue : List (Int × List (String × OrgUser)))
    (rbe : List (Int × List (String × String))) : Bool :=
  rbe.all (fun p => p.2.all (fun q =>
    match alookup oue p.1 with
    | none => false
    | some l =>
      match alookup l (sToLower (sTrim q.1)) with
      | none => false
      | some existing => eqFold existing.role q.2))

def NoAdminVals (m : List (String × List (String × String))) : Prop :=
  ∀ p ∈ m, ∀ q ∈ p.2, q.2 ≠ "admin"

def C1Inv (genv : GrafanaEnv) (st : BuildState) : Prop :=
  st.actions = [] ∧
  (∀ p ∈ st.userCache, genv.lookupUser p.1 = some p.2) ∧
  NoAdminVals st.teamRoleByTeamEmail

theorem c1_ite (genv : GrafanaEnv) (c : Prop) [Decidable c] (s1 s2 : BuildState)
    (hA : C1Inv genv s1) (hB : C1Inv genv s2) : C1Inv genv (if c then s1 else s2) := by
  by_cases hc : c
  · rw [if_pos hc]
    exact hA
  · rw [if_neg hc]
    exact hB

theorem maxTeamRole_member_ne_admin (cur : String) (h : cur ≠ "admin") :
    maxTeamRole cur "member" ≠ "admin" := by
  unfold maxTeamRole
  rw [show (sToLower "member" == "admin") = false from by decide]
  simp only [Bool.false_eq_true, if_false]
  by_cases hc : (cur == "") = true
  · rw [if_pos hc]
    decide
  · rw [if_neg hc]
    exact h

theorem noadmin_lookup2 (m : List (String × List (String × String))) (k k2 v : String)
    (hm : NoAdminVals m) (h : alookup2 m k k2 = some v) : v ≠ "admin" := by
  unfold alookup2 at h
  cases hl : alookup m k with
  | none =>
    rw [hl] at h
    simp at h
  | some inner =>
    rw [hl] at h
    simp only at h
    rcases alookup_mem _ _ _ h with ⟨q, hqm, _, hqv⟩
    rcases alookup_mem _ _ _ hl with ⟨p, hpm, _, hpv⟩
    rw [← hqv]
    exact hm p hpm q (by rw [hpv]; exact hqm)

theorem ainsert2_noadmin (m : List (String × List (String × String))) (k k2 v : String)
    (hm : NoAdminVals m) (hv : v ≠ "admin") : NoAdminVals (ainsert2 m k k2 v) := by
  intro p hp q hq
  unfold ainsert2 at hp
  rcases ainsert_pairs _ _ _ p hp with hp | rfl
  · exact hm p hp q hq
  · rcases ainsert_pairs _ _ _ q hq with hq | rfl
    · cases hl : alookup m k with
      | none =>
        rw [hl] at hq
        simp at hq
      | some inner =>
        rw [hl] at hq
        simp only [Option.getD_some] at hq
        rcases alookup_mem _ _ _ hl with ⟨p2, hp2m, _, hp2v⟩
        exact hm p2 hp2m q (by rw [hp2v]; exact hq)
    · exact hv

theorem collectWant_noadmin (mapping : Mapping) (key : String)
    (hmember : normalizeTeamRole mapping.teamRole = "member")
    (members : List Member)
    (acc : List (String × Member) × List (String × List (String × String)))
    (hacc : NoAdminVals acc.2) :
    NoAdminVals (members.foldl (collectWantStep mapping key) acc).2 := by
  refine foldl_inv (fun (a : List (String × Member) × List (String × List (String × String))) =>
    NoAdminVals a.2) _ ?_ members acc hacc
  intro a mem ha
  unfold collectWantStep
  try dsimp only
  by_cases he : (sTrim (sToLower (pickEmail mem)) == "") = true
  · rw [if_pos he]
    exact ha
  · rw [if_neg he]
    rw [hmember]
    refine ainsert2_noadmin _ _ _ _ ha ?_
    refine maxTeamRole_member_ne_admin _ ?_
    cases hl : alookup2 a.2 key (sTrim (sToLower (pickEmail mem))) with
    | none => simp
    | some v =>
      simp only [Option.getD_some]
      exact noadmin_lookup2 a.2 _ _ _ ha hl

theorem collectWant_pairs (mapping : Mapping) (key : String) :
    ∀ (members : List Member)
      (acc : List (String × Member) × List (String × List (String × String))),
      ∀ p ∈ (members.foldl (collectWantStep mapping key) acc).1,
        p ∈ acc.1 ∨ ∃ mem ∈ members,
          p.1 = sTrim (sToLower (pickEmail mem)) ∧ p.1 ≠ "" := by
  intro members
  induction members with
  | nil =>
    intro acc p hp
    exact Or.inl hp
  | cons mem t ih =>
    intro acc p hp
    rw [List.foldl_cons] at hp
    rcases ih (collectWantStep mapping key acc mem) p hp with hp2 | ⟨mem2, hm2, he2⟩
    · unfold collectWantStep at hp2
      by_cases he : (sTrim (sToLower (pickEmail mem)) == "") = true
      · rw [if_pos he] at hp2
        exact Or.inl hp2
      · rw [if_neg he] at hp2
        rcases ainsert_pairs _ _ _ p hp2 with hp3 | rfl
        · exact Or.inl hp3
        · refine Or.inr ⟨mem, List.mem_cons_self _ _, rfl, ?_⟩
          simpa using he
    · exact Or.inr ⟨mem2, List.mem_cons_of_mem _ hm2, he2⟩

theorem collectWant_covers (mapping : Mapping) (key : String) :
    ∀ (members : List Member)
      (acc : List (String × Member) × List (String × List (String × String)))
      (e : String), e ≠ "" →
      ((∃ mem ∈ members, sTrim (sToLower (pickEmail mem)) = e) ∨
        (alookup acc.1 e).isSome = true) →
      (alookup (members.foldl (collectWantStep mapping key) acc).1 e).isSome = true := by
  intro members
  induction members with
  | nil =>
    intro acc e hne h
    rcases h with ⟨mem, hm, _⟩ | h
    · simp at hm
    · exact h
  | cons mem t ih =>
    intro acc e hne h
    rw [List.foldl_cons]
    refine ih (collectWantStep mapping key acc mem) e hne ?_
    rcases h with ⟨mem2, hm2, he2⟩ | hsome
    · rcases List.mem_cons.mp hm2 with rfl | hm3
      · right
        unfold collectWantStep
        try dsimp only
        have he : (sTrim (sToLower (pickEmail mem2)) == "") = false := by
          rw [he2]
          simpa using hne
        rw [if_neg (by rw [he]; simp)]
        rw [alookup_ainsert]
        rw [if_pos (by rw [he2]; exact beq_self_eq_true e)]
        rfl
      · exact Or.inl ⟨mem2, hm3, he2⟩
    · right
      unfold collectWantStep
      try dsimp only
      by_cases he : (sTrim (sToLower (pickEmail mem)) == "") = true
      · rw [if_pos he]
        exact hsome
      · rw [if_neg he]
        rw [alookup_ainsert]
        by_cases hk : (sTrim (sToLower (pickEmail mem)) == e) = true
        · rw [if_pos hk]
          rfl
        · rw [if_neg hk]
          exact hsome

theorem buildHave_keys_ne (tms : List TeamMember) :
    ∀ p ∈ buildHave tms, p.1 ≠ "" := by
  unfold buildHave
  refine foldl_inv_mem (fun (acc : List (String × TeamMember)) => ∀ p ∈ acc, p.1 ≠ "") _ tms ?_ [] ?_
  · intro tm htm acc hacc p hp
    dsimp only at hp
    by_cases hne : (sTrim (sToLower tm.email) != "") = true
    · rw [if_pos hne] at hp
      rcases ainsert_pairs _ _ _ p hp with hp | rfl
      · exact hacc p hp
      · simpa [bne] using hne
    · rw [if_neg hne] at hp
      exact hacc p hp
  · intro p hp
    simp at hp

theorem wet_C1 (genv : GrafanaEnv) (orgNameByID : List (Int × String)) (org : Org)
    (mapping : Mapping) (teamID : Int) (role roleSource : String)
    (haveM : List (String × TeamMember)) (st : BuildState) (email : String)
    (user : Option GrafanaUser)
    (hhave : (alookup haveM email).isSome = true)
    (h : C1Inv genv st) :
    C1Inv genv (wantEntryTail orgNameByID org mapping teamID role roleSource haveM st email user) := by
  unfold wantEntryTail
  try dsimp only
  simp only [apply_ite BuildState.actions, apply_ite BuildState.userCache,
    apply_ite BuildState.teamRoleByTeamEmail, apply_ite BuildState.addedTeamUsers,
    apply_ite BuildState.updatedTeamRoles, ite_self]
  cases hh : alookup haveM email with
  | none =>
    rw [hh] at hhave
    simp at hhave
  | some tm =>
    simp only [hh]
    have hta : (((alookup2 st.teamRoleByTeamEmail (teamKey org.id mapping.grafanaTeamName) email).getD "") == "admin") = false := by
      cases hl : alookup2 st.teamRoleByTeamEmail (teamKey org.id mapping.grafanaTeamName) email with
      | none => decide
      | some v =>
        simp only [Option.getD_some]
        simpa using noadmin_lookup2 _ _ _ _ h.2.2 hl
    simp only [hta, Bool.false_eq_true, if_false]
    refine c1_ite genv _ _ _ ?_ ?_ <;> exact ⟨h.1, h.2.1, h.2.2⟩

theorem pwe_C1 (genv : GrafanaEnv) (cfg : SyncConfig)
    (orgNameByID : List (Int × String)) (org : Org) (mapping : Mapping)
    (teamID : Int) (role roleSource : String)
    (haveM : List (String × TeamMember)) (st : BuildState)
    (email : String) (member : Member)
    (hlu : ((genv.lookupUser email).getD none).isSome = true)
    (hhave : (alookup haveM email).isSome = true)
    (h : C1Inv genv st) :
    C1Inv genv (processWantEntry cfg genv orgNameByID org mapping teamID role roleSource haveM st email member) := by
  unfold processWantEntry
  cases hcache : alookup st.userCache email with
  | some u =>
    simp only [hcache]
    have hgu : genv.lookupUser email = some u := by
      rcases alookup_mem _ _ _ hcache with ⟨p, hpm, hk, hv⟩
      have hke : p.1 = email := by simpa using hk
      rw [← hke, ← hv]
      exact h.2.1 p hpm
    cases u with
    | none =>
      rw [hgu] at hlu
      simp at hlu
    | some u2 =>
      exact wet_C1 genv orgNameByID org mapping teamID role roleSource haveM st email (some u2) hhave h
  | none =>
    simp only [hcache]
    cases hfound : genv.lookupUser email with
    | none =>
      rw [hfound] at hlu
      simp at hlu
    | some found =>
      simp only [hfound]
      cases found with
      | none =>
        rw [hfound] at hlu
        simp at hlu
      | some u =>
        have h2 : C1Inv genv { st with userCache := ainsert st.userCache email (some u) } := by
          refine ⟨h.1, ?_, h.2.2⟩
          intro p hp
          rcases ainsert_pairs _ _ _ p hp with hp | rfl
          · exact h.2.1 p hp
          · exact hfound
        exact wet_C1 genv orgNameByID org mapping teamID role roleSource haveM _ email (some u) hhave h2

theorem pm_C1 (cfg : SyncConfig) (genv : GrafanaEnv) (eenv : EntraEnv)
    (orgByID : List (Int × Org)) (orgNameByID : List (Int × String))
    (st : BuildState) (m : Mapping)
    (hm : MappingStable cfg genv eenv orgByID m = true)
    (hmember : normalizeTeamRole m.teamRole = "member")
    (h : C1Inv genv st) :
    C1Inv genv (processMapping cfg genv eenv orgByID orgNameByID st m) := by
  unfold processMapping
  unfold MappingStable at hm
  cases horg : alookup orgByID m.orgID with
  | none => exact h
  | some org =>
    simp only [horg] at hm ⊢
    try dsimp only
    rw [Bool.and_eq_true] at hm
    obtain ⟨htid, hrest⟩ := hm
    have htid2 : (resolveTeamID genv org m == 0) = false := by
      simpa [bne] using htid
    simp only [htid2, Bool.false_eq_true, if_false, bne, Bool.not_false, if_true]
    cases hmem : eenv.listGroupMembers m.externalGroupID with
    | none => exact h
    | some members =>
      simp only [hmem] at hrest ⊢
      try dsimp only
      cases hlist : genv.listTeamMembers (resolveTeamID genv org m) with
      | none =>
        rw [hlist] at hrest
        simp at hrest
      | some tms =>
        simp only [hlist] at hrest ⊢
        try dsimp only
        rw [Bool.and_eq_true] at hrest
        obtain ⟨hmems, hrm⟩ := hrest
        have h2 : C1Inv genv { st with teamRoleByTeamEmail :=
            (members.foldl (collectWantStep m (teamKey org.id m.grafanaTeamName))
              ([], st.teamRoleByTeamEmail)).2 } := by
          refine ⟨h.1, h.2.1, ?_⟩
          exact collectWant_noadmin m _ hmember members ([], st.teamRoleByTeamEmail) h.2.2
        have hwant : ∀ s : BuildState, ∀ p ∈ (members.foldl (collectWantStep m (teamKey org.id m.grafanaTeamName))
            ([], st.teamRoleByTeamEmail)).1, C1Inv genv s →
            C1Inv genv (processWantEntry cfg genv orgNameByID org m (resolveTeamID genv org m)
              (mappingRole cfg org m).1 (mappingRole cfg org m).2 (buildHave tms) s p.1 p.2) := by
          intro s p hp hs
          rcases collectWant_pairs m _ members ([], st.teamRoleByTeamEmail) p hp with hpa | ⟨mem, hmmem, hpe, hpne⟩
          · simp at hpa
          · have hf := List.all_eq_true.mp hmems mem hmmem
            simp only at hf
            rw [← hpe] at hf
            have hne : (p.1 == "") = false := by simpa using hpne
            rw [hne] at hf
            simp only [Bool.false_or, Bool.and_eq_true] at hf
            exact pwe_C1 genv cfg orgNameByID org m _ _ _ _ s p.1 p.2 hf.1 hf.2 hs
        by_cases hrmu : cfg.allowRemoveUsers = true
        · simp only [hrmu, if_true]
          have hrmall : (buildHave tms).all (fun p =>
              members.any (fun mem => sTrim (sToLower (pickEmail mem)) == p.1)) = true := by
            simpa [hrmu] using hrm
          refine foldl_inv_mem (C1Inv genv) _ _ ?_ _ ?_
          · intro p hp s hs
            try dsimp only
            have hany := List.any_eq_true.mp (List.all_eq_true.mp hrmall p hp)
            rcases hany with ⟨mem, hmm, hbeq⟩
            have heq : sTrim (sToLower (pickEmail mem)) = p.1 := by simpa using hbeq
            have hw : (alookup (members.foldl (collectWantStep m (teamKey org.id m.grafanaTeamName))
                ([], st.teamRoleByTeamEmail)).1 p.1).isSome = true :=
              collectWant_covers m _ members ([], st.teamRoleByTeamEmail) p.1
                (buildHave_keys_ne tms p hp) (Or.inl ⟨mem, hmm, heq⟩)
            simp only [hw, if_true]
            exact hs
          · refine foldl_inv_mem (C1Inv genv) _ _ ?_ _ h2
            intro p hp s hs
            exact hwant s p hp hs
        · simp only [hrmu, if_false]
          refine foldl_inv_mem (C1Inv genv) _ _ ?_ _ h2
          intro p hp s hs
          exact hwant s p hp hs

theorem orgRolePass_stable (orgByID : List (Int × Org))
    (oue : List (Int × List (String × OrgUser))) (st : BuildState)
    (h3 : OrgRolesStable oue st.roleByOrgEmail = true) :
    orgRolePass orgByID oue st = st.actions := by
  unfold OrgRolesStable at h3
  unfold orgRolePass
  refine foldl_inv_mem (fun (acts : List PlanAction) => acts = st.actions) _ _ ?_ _ rfl
  intro p hp acts hacts
  try dsimp only
  have hpall := List.all_eq_true.mp h3 p hp
  simp only at hpall
  refine foldl_inv_mem (fun (acts2 : List PlanAction) => acts2 = st.actions) _ _ ?_ _ hacts
  intro q hq acts2 hacts2
  have hqok := List.all_eq_true.mp hpall q hq
  simp only at hqok
  cases hl : alookup oue p.1 with
  | none =>
    rw [hl] at hqok
    simp at hqok
  | some l =>
    rw [hl] at hqok
    simp only at hqok
    cases hex : alookup l (sToLower (sTrim q.1)) with
    | none =>
      rw [hex] at hqok
      simp at hqok
    | some existing =>
      rw [hex] at hqok
      simp only at hqok
      simp only [hl, hex]
      simp only [hqok, Bool.not_true, Bool.false_eq_true, if_false]
      exact hacts2

/-- **C1** (amended): planning is idempotent for member-role mappings — if
the directory and platform state is stable (mapped teams resolve, every
wanted member has an account and is already on the mapped team, removals
are consistent, and the listed org roles already match the accumulated
requirements under `EqualFold`) and every mapping's normalized team role
policy is `member`, then `BuildPlan` returns an empty action list.  (For
`admin` mappings the guard re-emits `update_team_role` on every run, so
the unconditional claim fails; see the counterexample.) -/
theorem c1_idempotence_amended (cfg : SyncConfig) (genv : GrafanaEnv)
    (eenv : EntraEnv) (orgs : List Org) (mappings : List Mapping)
    (hstable : StableFor cfg genv eenv orgs mappings = true)
    (horgs : OrgRolesStable (collectOrgUsers genv orgs)
      (buildPhase1 cfg genv eenv orgs mappings).roleByOrgEmail = true)
    (hmember : ∀ m ∈ mappings, normalizeTeamRole m.teamRole = "member") :
    BuildPlan cfg genv eenv orgs mappings = [] := by
  have hph : C1Inv genv (buildPhase1 cfg genv eenv orgs mappings) := by
    unfold buildPhase1
    refine foldl_inv_mem (C1Inv genv) _ _ ?_ _ ?_
    · intro m hm s hs
      exact pm_C1 cfg genv eenv _ _ s m (List.all_eq_true.mp hstable m hm) (hmember m hm) hs
    · refine ⟨rfl, ?_, ?_⟩
      · intro p hp
        simp at hp
      · intro p hp
        simp at hp
  unfold BuildPlan
  rw [orgRolePass_stable _ _ _ horgs, hph.1]

def c1wOrg : Org := { id := 1, grafanaOrgID := 10, name := "Main", defaultRole := "Viewer" }

def c1wMap : Mapping :=
  { id := 1, orgID := 1, grafanaTeamName := "devs", grafanaTeamID := 7,
    externalGroupID := "g1", teamRole := "member" }

def c1wGenv : GrafanaEnv :=
  { searchTeam := fun _ _ => some (some 7)
    listTeamMembers := fun _ => some [{ id := 2, email := "bob@example.com", role := "Member" }]
    lookupUser := fun _ => some (some { id := 2, email := "bob@example.com" })
    listOrgUsers := fun _ => some [{ id := 2, email := "bob@example.com", role := "Viewer" }] }

def c1wEenv : EntraEnv :=
  { listGroupMembers := fun _ =>
      some [{ id := "m2", displayName := "Bob", mail := "bob@example.com" }] }

def c1wCfg : SyncConfig :=
  { defaultUserRole := "Viewer", allowCreateUsers := false, allowRemoveUsers := true }

theorem c1_idempotence_amended_witness :
    StableFor c1wCfg c1wGenv c1wEenv [c1wOrg] [c1wMap] = true ∧
    OrgRolesStable (collectOrgUsers c1wGenv [c1wOrg])
      (buildPhase1 c1wCfg c1wGenv c1wEenv [c1wOrg] [c1wMap]).roleByOrgEmail = true ∧
    (∀ m ∈ [c1wMap], normalizeTeamRole m.teamRole = "member") ∧
    BuildPlan c1wCfg c1wGenv c1wEenv [c1wOrg] [c1wMap] = [] :=
  ⟨by decide, by decide, by decide,
   c1_idempotence_amended c1wCfg c1wGenv c1wEenv [c1wOrg] [c1wMap]
     (by decide) (by decide) (by decide)⟩

def c1xOrg : Org := { id := 1, grafanaOrgID := 10, name := "Main", defaultRole := "Viewer" }

def c1xMap : Mapping :=
  { id := 1, orgID := 1, grafanaTeamName := "devs", grafanaTeamID := 7,
    externalGroupID := "g1", teamRole := "admin" }

def c1xGenv : GrafanaEnv :=
  { searchTeam := fun _ _ => some (some 7)
    listTeamMembers := fun _ => some [{ id := 2, email := "bob@example.com", role := "Admin" }]
    lookupUser := fun _ => some (some { id := 2, email := "bob@example.com" })
    listOrgUsers := fun _ => some [{ id := 2, email := "bob@example.com", role := "Viewer" }] }

def c1xEenv : EntraEnv :=
  { listGroupMembers := fun _ =>
      some [{ id := "m2", displayName := "Bob", mail := "bob@example.com" }] }

def c1xCfg : SyncConfig :=
  { defaultUserRole := "Viewer", allowCreateUsers := false, allowRemoveUsers := true }

/-- **C1 counterexample**: a fully-stable state — the team exists, its only
wanted member already is a team member holding the `Admin` team role, and
the org role matches — on which a previously built plan has visibly been
fully applied, yet `BuildPlan` is not empty: the admin mapping re-emits
`update_team_role` on every run. -/
theorem c1_counterexample :
    StableFor c1xCfg c1xGenv c1xEenv [c1xOrg] [c1xMap] = true ∧
    OrgRolesStable (collectOrgUsers c1xGenv [c1xOrg])
      (buildPhase1 c1xCfg c1xGenv c1xEenv [c1xOrg] [c1xMap]).roleByOrgEmail = true ∧
    (∀ tm ∈ (c1xGenv.listTeamMembers 7).getD [], eqFold tm.role "admin" = true) ∧
    BuildPlan c1xCfg c1xGenv c1xEenv [c1xOrg] [c1xMap] ≠ [] := by
  decide
